import Mathlib

/-!
Verification of the nostr-nostd crate (a no_std Nostr client) against its
natural-language specification.  The Rust sources under src/ are shallowly
embedded below: byte strings become `List Nat` (each element a byte or an
ASCII code), fixed-size buffers with bounds-checked writes become list
construction together with explicit capacity checks, fallible Rust code
returns `Except`/`Outcome`, and Rust panics (`expect`, slice errors, index
out of bounds) are modelled by the distinguished outcome `panicked`.
The cryptographic primitives consumed by the crate (sha2, secp256k1
Schnorr/ECDH, AES-256-CBC, base16ct, base64ct) are implemented executably
and validated against the crate's own test vectors further below.
-/

set_option maxRecDepth 1000000

namespace Nostr

/-- Byte strings (every element is intended to be < 256). -/
abbrev Bytes := List Nat

/-- ASCII bytes of a Lean string literal (used only for ASCII text). -/
def bs (s : String) : Bytes := s.toList.map Char.toNat

/-! ## SHA-256 (the `sha2` crate dependency, modelled from FIPS 180-4) -/

/-- 2^32, the word modulus of SHA-256. -/
def m32 : Nat := 4294967296

def rotr (x n : Nat) : Nat := ((x >>> n) ||| (x <<< (32 - n))) % m32

def shaK : List Nat :=
  [1116352408, 1899447441, 3049323471, 3921009573, 961987163, 1508970993,
   2453635748, 2870763221, 3624381080, 310598401, 607225278, 1426881987,
   1925078388, 2162078206, 2614888103, 3248222580, 3835390401, 4022224774,
   264347078, 604807628, 770255983, 1249150122, 1555081692, 1996064986,
   2554220882, 2821834349, 2952996808, 3210313671, 3336571891, 3584528711,
   113926993, 338241895, 666307205, 773529912, 1294757372, 1396182291,
   1695183700, 1986661051, 2177026350, 2456956037, 2730485921, 2820302411,
   3259730800, 3345764771, 3516065817, 3600352804, 4094571909, 275423344,
   430227734, 506948616, 659060556, 883997877, 958139571, 1322822218,
   1537002063, 1747873779, 1955562222, 2024104815, 2227730452, 2361852424,
   2428436474, 2756734187, 3204031479, 3329325298]

def shaInit : List Nat :=
  [1779033703, 3144134277, 1013904242, 2773480762,
   1359893119, 2600822924, 528734635, 1541459225]

/-- Group a byte list into 32-bit big-endian words (length a multiple of 4). -/
def toWords : Bytes → List Nat
  | a :: b :: c :: d :: t => (((a * 256 + b) * 256 + c) * 256 + d) :: toWords t
  | _ => []

def smallSigma0 (x : Nat) : Nat := (rotr x 7) ^^^ (rotr x 18) ^^^ (x >>> 3)
def smallSigma1 (x : Nat) : Nat := (rotr x 17) ^^^ (rotr x 19) ^^^ (x >>> 10)
def bigSigma0 (x : Nat) : Nat := (rotr x 2) ^^^ (rotr x 13) ^^^ (rotr x 22)
def bigSigma1 (x : Nat) : Nat := (rotr x 6) ^^^ (rotr x 11) ^^^ (rotr x 25)

/-- Extend the 16 message words to 64; `w` holds the words accumulated in reverse. -/
def extendW : Nat → List Nat → List Nat
  | 0, w => w
  | fuel+1, w =>
    let w2 := (w.drop 1).headD 0
    let w7 := (w.drop 6).headD 0
    let w15 := (w.drop 14).headD 0
    let w16 := (w.drop 15).headD 0
    extendW fuel (((w16 + smallSigma0 w15 + w7 + smallSigma1 w2) % m32) :: w)

/-- One SHA-256 round on the 8-word state, given k[i] + w[i]. -/
def shaRound (kw : Nat) (st : List Nat) : List Nat :=
  match st with
  | [a, b, c, d, e, f, g, h] =>
    let t1 := (h + bigSigma1 e + ((e &&& f) ^^^ ((m32 - 1 - e) &&& g)) + kw) % m32
    let t2 := (bigSigma0 a + ((a &&& b) ^^^ (a &&& c) ^^^ (b &&& c))) % m32
    [(t1 + t2) % m32, a, b, c, (d + t1) % m32, e, f, g]
  | st => st

def compress (h : List Nat) (block : Bytes) : List Nat :=
  let w := (extendW 48 (toWords block).reverse).reverse
  let kw := (List.zip shaK w).map (fun p => (p.1 + p.2) % m32)
  let st := kw.foldl (fun st kwi => shaRound kwi st) h
  (List.zip h st).map (fun p => (p.1 + p.2) % m32)

/-- Cut a byte list into chunks of `sz` bytes (fuelled). -/
def chunksOf (sz : Nat) : Nat → Bytes → List Bytes
  | 0, _ => []
  | _, [] => []
  | fuel+1, l => l.take sz :: chunksOf sz fuel (l.drop sz)

def shaPad (msg : Bytes) : Bytes :=
  let len := msg.length
  let zeros := (64 - ((len + 9) % 64)) % 64
  msg ++ [128] ++ List.replicate zeros 0 ++
    (List.range 8).map (fun i => ((len * 8) >>> ((7 - i) * 8)) % 256)

def wordsToBytes (ws : List Nat) : Bytes :=
  ws.flatMap (fun w => [(w >>> 24) % 256, (w >>> 16) % 256, (w >>> 8) % 256, w % 256])

/-- SHA-256 of a byte string, as 32 bytes. -/
def sha256 (msg : Bytes) : Bytes :=
  let padded := shaPad msg
  wordsToBytes ((chunksOf 64 (padded.length / 64 + 1) padded).foldl compress shaInit)

/-! ## Hex codec (the `base16ct` crate dependency, lowercase alphabet) -/

def hexCharOfNibble (n : Nat) : Nat := if n < 10 then 48 + n else 87 + n

/-- base16ct lower::encode of bytes, as ASCII bytes. -/
def hexEncode (l : Bytes) : Bytes :=
  l.flatMap (fun b => [hexCharOfNibble (b / 16), hexCharOfNibble (b % 16)])

/-- Value of one lowercase hex digit; none on any other byte. -/
def hexNibble (c : Nat) : Option Nat :=
  if 48 ≤ c ∧ c ≤ 57 then some (c - 48)
  else if 97 ≤ c ∧ c ≤ 102 then some (c - 87)
  else none

/-- base16ct lower::decode; none on odd length or on a non-hex byte. -/
def hexDecode : Bytes → Option Bytes
  | [] => some []
  | a :: b :: t =>
    match hexNibble a, hexNibble b, hexDecode t with
    | some va, some vb, some rest => some ((va * 16 + vb) :: rest)
    | _, _, _ => none
  | _ => none

/-! ## secp256k1 and BIP-340 Schnorr (the `secp256k1` crate dependency) -/

def secp_p : Nat := 2^256 - 2^32 - 977
def secp_n : Nat := 0xfffffffffffffffffffffffffffffffebaaedce6af48a03bbfd25e8cd0364141

/-- Modular exponentiation by binary decomposition of the exponent (fuelled). -/
def powMod : Nat → Nat → Nat → Nat → Nat
  | 0, _, _, _ => 1
  | fuel+1, b, e, m =>
    if e = 0 then 1 % m
    else
      let h := powMod fuel b (e / 2) m
      let h2 := h * h % m
      if e % 2 = 1 then h2 * b % m else h2

/-- Inverse mod the field prime, via Fermat. -/
def pinv (a : Nat) : Nat := powMod 260 a (secp_p - 2) secp_p

/-- Jacobian-coordinates point; z = 0 encodes the point at infinity. -/
structure JPt where
  x : Nat
  y : Nat
  z : Nat
  deriving DecidableEq

def jZero : JPt := ⟨1, 1, 0⟩

def jDouble (pt : JPt) : JPt :=
  if pt.z = 0 ∨ pt.y = 0 then jZero
  else
    let p := secp_p
    let y2 := pt.y * pt.y % p
    let s := 4 * pt.x % p * y2 % p
    let m := 3 * pt.x % p * pt.x % p
    let x3 := (m * m + 2 * p * p - 2 * s) % p
    let y3 := (m * ((s + p - x3) % p) + p * p - 8 * y2 % p * y2) % p
    let z3 := 2 * pt.y * pt.z % p
    ⟨x3, y3, z3⟩

def jAdd (a b : JPt) : JPt :=
  if a.z = 0 then b
  else if b.z = 0 then a
  else
    let p := secp_p
    let z1z1 := a.z * a.z % p
    let z2z2 := b.z * b.z % p
    let u1 := a.x * z2z2 % p
    let u2 := b.x * z1z1 % p
    let s1 := a.y * z2z2 % p * b.z % p
    let s2 := b.y * z1z1 % p * a.z % p
    if u1 = u2 then
      if s1 = s2 then jDouble a else jZero
    else
      let h := (u2 + p - u1) % p
      let h2 := h * h % p
      let h3 := h2 * h % p
      let r := (s2 + p - s1) % p
      let x3 := (r * r % p + 3 * p - h3 - 2 * (u1 * h2 % p)) % p
      let y3 := (r * ((u1 * h2 % p + p - x3) % p) % p + p - s1 * h3 % p) % p
      let z3 := h * a.z % p * b.z % p
      ⟨x3, y3, z3⟩

def jMulAux : Nat → Nat → JPt → JPt → JPt
  | 0, _, _, acc => acc
  | fuel+1, k, base, acc =>
    if k = 0 then acc
    else jMulAux fuel (k / 2) (jDouble base) (if k % 2 = 1 then jAdd acc base else acc)

/-- Scalar multiplication on secp256k1. -/
def jMul (k : Nat) (pt : JPt) : JPt := jMulAux 257 k pt jZero

/-- Affine coordinates of a Jacobian point; none is the point at infinity. -/
def toAffine (a : JPt) : Option (Nat × Nat) :=
  if a.z = 0 then none
  else
    let zi := pinv a.z
    let zi2 := zi * zi % secp_p
    some (a.x * zi2 % secp_p, a.y * zi2 % secp_p * zi % secp_p)

/-- The secp256k1 base point. -/
def pG : JPt :=
  ⟨0x79be667ef9dcbbac55a06295ce870b07029bfcdb2dce28d959f2815b16f81798,
   0x483ada7726a3c4655da4fbfc0e1108a8fd17b448a68554199c47d08ffb10d4b8, 1⟩

/-- Big-endian value of a byte string. -/
def beNat (l : Bytes) : Nat := l.foldl (fun a b => a * 256 + b) 0

def natToBe : Nat → Nat → Bytes → Bytes
  | 0, _, acc => acc
  | len+1, n, acc => natToBe len (n / 256) (n % 256 :: acc)

/-- 32-byte big-endian encoding. -/
def be32 (n : Nat) : Bytes := natToBe 32 n []

/-- BIP-340 tagged hash. -/
def taggedHash (tag : String) (msg : Bytes) : Bytes :=
  let th := sha256 (bs tag)
  sha256 (th ++ th ++ msg)

/-- Lift an x coordinate to the even-y curve point, as in BIP-340; none if not on the curve. -/
def liftX (x : Nat) : Option (Nat × Nat) :=
  if x ≥ secp_p then none
  else
    let c := (powMod 260 x 3 secp_p + 7) % secp_p
    let y := powMod 260 c ((secp_p + 1) / 4) secp_p
    if y * y % secp_p ≠ c then none
    else some (x, if y % 2 = 0 then y else secp_p - y)

/-- The x-only public key of secret scalar d together with the y parity
(KeyPair::x_only_public_key); none when d is not a valid secret key. -/
def xOnly (d : Nat) : Option (Nat × Nat) := toAffine (jMul d pG)

/-- BIP-340 Schnorr signature with caller-supplied auxiliary randomness
(sign_schnorr_with_aux_rand); none models the unreachable internal failures. -/
def schnorrSign (msg32 : Bytes) (d0 : Nat) (aux : Bytes) : Option Bytes :=
  match toAffine (jMul d0 pG) with
  | none => none
  | some (px, py) =>
    let d := if py % 2 = 0 then d0 else secp_n - d0
    let t := d ^^^ beNat (taggedHash "BIP0340/aux" aux)
    let rand := taggedHash "BIP0340/nonce" (be32 t ++ be32 px ++ msg32)
    let k0 := beNat rand % secp_n
    if k0 = 0 then none
    else
      match toAffine (jMul k0 pG) with
      | none => none
      | some (rx, ry) =>
        let k := if ry % 2 = 0 then k0 else secp_n - k0
        let e := beNat (taggedHash "BIP0340/challenge" (be32 rx ++ be32 px ++ msg32)) % secp_n
        some (be32 rx ++ be32 ((k + e * d) % secp_n))

/-- BIP-340 Schnorr verification (verify_schnorr). -/
def schnorrVerify (msg32 : Bytes) (pubx : Nat) (sig : Bytes) : Bool :=
  match liftX pubx with
  | none => false
  | some (px, py) =>
    let r := beNat (sig.take 32)
    let s := beNat (sig.drop 32)
    if r ≥ secp_p ∨ s ≥ secp_n then false
    else
      let e := beNat (taggedHash "BIP0340/challenge" (be32 r ++ be32 px ++ msg32)) % secp_n
      match toAffine (jAdd (jMul s pG) (jMul (secp_n - e) ⟨px, py, 1⟩)) with
      | none => false
      | some (rx, ry) => ry % 2 = 0 ∧ rx = r

end Nostr

namespace Nostr

/-! ## AES-256 (the aes crate dependency, modelled from FIPS 197) -/

/-- The AES S-box packed into one integer: byte i is the image of i. -/
def sboxN : Nat :=
  0x16bb54b00f2d99416842e6bf0d89a18cdf2855cee9871e9b948ed9691198f8e19e1dc186b95735610ef6034866b53e708a8bbd4b1f74dde8c6b4a61c2e2578ba08ae7a65eaf4566ca94ed58d6d37c8e779e4959162acd3c25c2406490a3a32e0db0b5ede14b8ee4688902a22dc4f816073195d643d7ea7c41744975fec130ccdd2f3ff1021dab6bcf5389d928f40a351a89f3c507f02f94585334d43fbaaefd0cf584c4a39becb6a5bb1fc20ed00d153842fe329b3d63b52a05a6e1b1a2c830975b227ebe28012079a059618c323c7041531d871f1e5a534ccf73f362693fdb7c072a49cafa2d4adf04759fa7dc982ca76abd7fe2b670130c56f6bf27b777c63

/-- The inverse AES S-box, packed the same way. -/
def invSboxN : Nat :=
  0x7d0c2155631469e126d677ba7e042b17619953833cbbebc8b0f52aae4d3be0a0ef9cc9939f7ae52d0d4ab519a97f51605fec8027591012b131c7078833a8dd1ff45acd78fec0db9a2079d2c64b3e56fc1bbe18aa0e62b76f89c5291d711af1476edf751ce837f9e28535ade72274ac9673e6b4f0cecff297eadc674f4111913a6b8a130103bdafc1020f3fca8f1e2cd00645b3b80558e4f70ad3bc8c00abd890849d8da75746155edab9edfd5048706c92b6655dcc5ca4d41698688664f6f87225d18b6d49a25b76b224d92866a12e084ec3fa420b954cee3d23c2a632947b54cbe9dec444438e3487ff2f9b8239e37cfbd7f3819ea340bf38a53630d56a0952

end Nostr

namespace Nostr

def sbox (b : Nat) : Nat := (sboxN >>> (8 * b)) &&& 255
def invSbox (b : Nat) : Nat := (invSboxN >>> (8 * b)) &&& 255

def gm2 (x : Nat) : Nat := ((x * 2) ^^^ (if x ≥ 128 then 27 else 0)) % 256
def gm3 (x : Nat) : Nat := gm2 x ^^^ x
def gm4 (x : Nat) : Nat := gm2 (gm2 x)
def gm8 (x : Nat) : Nat := gm2 (gm4 x)
def gm9 (x : Nat) : Nat := gm8 x ^^^ x
def gm11 (x : Nat) : Nat := gm8 x ^^^ gm2 x ^^^ x
def gm13 (x : Nat) : Nat := gm8 x ^^^ gm4 x ^^^ x
def gm14 (x : Nat) : Nat := gm8 x ^^^ gm4 x ^^^ gm2 x

/-- AES words as 4-byte big-endian integers. -/
def subWord (w : Nat) : Nat :=
  (sbox ((w >>> 24) % 256)) <<< 24 ||| (sbox ((w >>> 16) % 256)) <<< 16 |||
  (sbox ((w >>> 8) % 256)) <<< 8 ||| sbox (w % 256)

def rotWord (w : Nat) : Nat := ((w <<< 8) ||| (w >>> 24)) % m32

def rcon : List Nat := [0x01000000, 0x02000000, 0x04000000, 0x08000000, 0x10000000,
  0x20000000, 0x40000000]

/-- AES-256 key schedule: extend the 8 key words to 60; `ws` accumulates in reverse. -/
def keyExpandAux : Nat → List Nat → List Nat
  | 0, ws => ws
  | fuel+1, ws =>
    let i := ws.length
    let temp := ws.headD 0
    let w8 := (ws.drop 7).headD 0
    let temp :=
      if i % 8 = 0 then subWord (rotWord temp) ^^^ (rcon.getD (i / 8 - 1) 0)
      else if i % 8 = 4 then subWord temp
      else temp
    keyExpandAux fuel ((w8 ^^^ temp) :: ws)

def keyExpand (key : Bytes) : List Nat :=
  (keyExpandAux 52 (toWords key).reverse).reverse

/-- The 15 round keys, 16 bytes each. -/
def roundKeys (key : Bytes) : List Bytes :=
  chunksOf 16 15 (wordsToBytes (keyExpand key))

def xorBytes (a b : Bytes) : Bytes := (List.zip a b).map (fun p => p.1 ^^^ p.2)

def subBytesOp (st : Bytes) : Bytes := st.map sbox
def invSubBytesOp (st : Bytes) : Bytes := st.map invSbox

/-- ShiftRows; state byte j is row j % 4, column j / 4. -/
def shiftRowsOp (st : Bytes) : Bytes :=
  (List.range 16).map (fun j => st.getD (j % 4 + 4 * ((j / 4 + j % 4) % 4)) 0)

def invShiftRowsOp (st : Bytes) : Bytes :=
  (List.range 16).map (fun j => st.getD (j % 4 + 4 * ((j / 4 + 4 - j % 4) % 4)) 0)

def mixCol (c : Bytes) : Bytes :=
  match c with
  | [a0, a1, a2, a3] =>
    [gm2 a0 ^^^ gm3 a1 ^^^ a2 ^^^ a3,
     a0 ^^^ gm2 a1 ^^^ gm3 a2 ^^^ a3,
     a0 ^^^ a1 ^^^ gm2 a2 ^^^ gm3 a3,
     gm3 a0 ^^^ a1 ^^^ a2 ^^^ gm2 a3]
  | c => c

def invMixCol (c : Bytes) : Bytes :=
  match c with
  | [a0, a1, a2, a3] =>
    [gm14 a0 ^^^ gm11 a1 ^^^ gm13 a2 ^^^ gm9 a3,
     gm9 a0 ^^^ gm14 a1 ^^^ gm11 a2 ^^^ gm13 a3,
     gm13 a0 ^^^ gm9 a1 ^^^ gm14 a2 ^^^ gm11 a3,
     gm11 a0 ^^^ gm13 a1 ^^^ gm9 a2 ^^^ gm14 a3]
  | c => c

def mixColumnsOp (st : Bytes) : Bytes := ((chunksOf 4 4 st).map mixCol).flatten
def invMixColumnsOp (st : Bytes) : Bytes := ((chunksOf 4 4 st).map invMixCol).flatten

/-- AES-256 single-block encryption. -/
def aesEncBlock (key : Bytes) (blk : Bytes) : Bytes :=
  let rks := roundKeys key
  let st := xorBytes blk (rks.getD 0 [])
  let st := (List.range 13).foldl (fun st r =>
    xorBytes (mixColumnsOp (shiftRowsOp (subBytesOp st))) (rks.getD (r + 1) [])) st
  xorBytes (shiftRowsOp (subBytesOp st)) (rks.getD 14 [])

/-- AES-256 single-block decryption. -/
def aesDecBlock (key : Bytes) (blk : Bytes) : Bytes :=
  let rks := roundKeys key
  let st := xorBytes blk (rks.getD 14 [])
  let st := (List.range 13).foldl (fun st r =>
    invMixColumnsOp (xorBytes (invSubBytesOp (invShiftRowsOp st)) (rks.getD (13 - r) []))) st
  xorBytes (invSubBytesOp (invShiftRowsOp st)) (rks.getD 0 [])

/-! ## Base64 (the base64ct crate dependency, standard padded alphabet) -/

def b64Char (n : Nat) : Nat :=
  if n < 26 then 65 + n
  else if n < 52 then 97 + (n - 26)
  else if n < 62 then 48 + (n - 52)
  else if n = 62 then 43
  else 47

def b64Val (c : Nat) : Option Nat :=
  if 65 ≤ c ∧ c ≤ 90 then some (c - 65)
  else if 97 ≤ c ∧ c ≤ 122 then some (c - 97 + 26)
  else if 48 ≤ c ∧ c ≤ 57 then some (c - 48 + 52)
  else if c = 43 then some 62
  else if c = 47 then some 63
  else none

def b64EncGroups : Nat → Bytes → Bytes
  | 0, _ => []
  | _, [] => []
  | fuel+1, l =>
    match l with
    | [a] => [b64Char (a / 4), b64Char (a % 4 * 16), 61, 61]
    | [a, b] => [b64Char (a / 4), b64Char (a % 4 * 16 + b / 16), b64Char (b % 16 * 4), 61]
    | a :: b :: c :: t =>
      b64Char (a / 4) :: b64Char (a % 4 * 16 + b / 16) ::
        b64Char (b % 16 * 4 + c / 64) :: b64Char (c % 64) :: b64EncGroups fuel t
    | [] => []

def b64Encode (l : Bytes) : Bytes := b64EncGroups (l.length + 1) l

def b64DecGroups : Nat → Bytes → Option Bytes
  | 0, _ => some []
  | _, [] => some []
  | fuel+1, l =>
    match l with
    | [a, b, 61, 61] =>
      match b64Val a, b64Val b with
      | some va, some vb => if vb % 16 = 0 then some [va * 4 + vb / 16] else none
      | _, _ => none
    | [a, b, c, 61] =>
      match b64Val a, b64Val b, b64Val c with
      | some va, some vb, some vc =>
        if vc % 4 = 0 then some [va * 4 + vb / 16, vb % 16 * 16 + vc / 4] else none
      | _, _, _ => none
    | a :: b :: c :: d :: t =>
      match b64Val a, b64Val b, b64Val c, b64Val d with
      | some va, some vb, some vc, some vd =>
        match b64DecGroups fuel t with
        | some rest =>
          some ((va * 4 + vb / 16) :: (vb % 16 * 16 + vc / 4) :: (vc % 4 * 64 + vd) :: rest)
        | none => none
      | _, _, _, _ => none
    | _ => none

/-- Strict base64 decode (canonical padding); none on invalid input. -/
def b64Decode (l : Bytes) : Option Bytes := b64DecGroups (l.length + 1) l

end Nostr

namespace Nostr

/-! ## Errors and outcomes

The error enumeration of src/errors.rs (plus InvalidSignature, which
src/lib.rs surfaces from validate_signature).  `Outcome` is a Rust
`Result` extended with a `panicked` case modelling `expect`, index and
slice panics. -/

inductive Err where
  | invalidPubkey
  | invalidPrivkey
  | invalidSignature
  | internalPubkeyError
  | internalSigningError
  | tagNameTooLong
  | unknownKind
  | invalidType
  | typeNotAccepted
  | malformedContent
  | contentOverflow
  | eventNotValid
  | eventMissingField
  | tooManyTags
  | internalError
  | encodeError
  | secp256k1Error
  | queryBuilderOverflow
  deriving DecidableEq

inductive Outcome (α : Type) where
  | ok (a : α)
  | err (e : Err)
  | panicked
  deriving DecidableEq

def Outcome.isOk {α : Type} [DecidableEq α] : Outcome α → Bool
  | .ok _ => true
  | _ => false

/-! ## Substring search and split (str::match_indices / str::split at byte level) -/

/-- Index of the first occurrence of `pat` in `l` (match_indices(..).next()). -/
def findSub (pat : Bytes) : Bytes → Option Nat
  | [] => if pat.isPrefixOf [] then some 0 else none
  | a :: t => if pat.isPrefixOf (a :: t) then some 0 else (findSub pat t).map (· + 1)

/-- str::split with byte-sequence separator, fuelled; leftmost-first and
non-overlapping, like Rust's. -/
def splitSeqF (sep : Bytes) : Nat → Bytes → List Bytes
  | 0, l => [l]
  | fuel+1, l =>
    match findSub sep l with
    | none => [l]
    | some i => l.take i :: splitSeqF sep fuel (l.drop (i + sep.length))

def splitSeq (sep l : Bytes) : List Bytes := splitSeqF sep (l.length + 1) l

/-! ## Numeric utils (src/utils.rs) -/

/-- Decimal digits of n as ASCII, least significant first (the push loop of
to_decimal_str); 10 units of fuel as the String<10> buffer allows. -/
def decRevF : Nat → Nat → Bytes
  | 0, _ => []
  | fuel+1, n => if n = 0 then [] else (48 + n % 10) :: decRevF fuel (n / 10)

/-- utils::to_decimal_str. -/
def to_decimal_str (n : Nat) : Bytes :=
  if n = 0 then [48] else (decRevF 10 n).reverse

/-! ## Note kinds (src/lib.rs, NoteKinds) -/

inductive NoteKinds where
  | shortNote
  | dm
  | iot
  | auth
  | regular (v : Nat)
  | replaceable (v : Nat)
  | ephemeral (v : Nat)
  | parameterizedReplaceable (v : Nat)
  | custom (v : Nat)
  deriving DecidableEq

/-- The numeric value serialized for a kind. -/
def NoteKinds.numeric : NoteKinds → Nat
  | .shortNote => 1
  | .dm => 4
  | .iot => 5732
  | .auth => 22242
  | .regular v => v
  | .replaceable v => v
  | .ephemeral v => v
  | .parameterizedReplaceable v => v
  | .custom v => v

/-- NoteKinds::serialize. -/
def NoteKinds.serialize (k : NoteKinds) : Bytes := to_decimal_str k.numeric

/-- From<u16> for NoteKinds, with the match arms in source order. -/
def noteKindsFromU16 (x : Nat) : NoteKinds :=
  if x = 1 then .shortNote
  else if x = 4 then .dm
  else if x = 5732 then .iot
  else if x = 22242 then .auth
  else if 1000 ≤ x ∧ x < 10000 then .regular x
  else if 10000 ≤ x ∧ x < 20000 then .replaceable x
  else if 20000 ≤ x ∧ x < 30000 then .ephemeral x
  else if 30000 ≤ x ∧ x < 40000 then .parameterizedReplaceable x
  else .custom x

/-! ## The Note model (src/lib.rs)

id, pubkey and sig hold ASCII hex characters (64, 64 and 128 bytes); a tag
is stored as its comma-joined element string; content is optional. -/

structure Note where
  id : Bytes
  pubkey : Bytes
  created_at : Nat
  kind : NoteKinds
  tags : List Bytes
  content : Option Bytes
  sig : Bytes
  deriving DecidableEq

/-- One tag's contribution to the canonical tags segment: `[`, each
comma-separated element quoted and followed by a comma, the trailing comma
removed (count -= 1), then `],` (to_hash_str and to_json share this loop). -/
def tagSeg (t : Bytes) : Bytes :=
  (([91] ++ (splitSeq [44] t).flatMap (fun e => [34] ++ e ++ [34, 44])).dropLast) ++ [93, 44]

/-- The full tags segment between the outer brackets: each tag's segment in
order, with the final comma removed when any tag is present. -/
def tagsSegRaw (tags : List Bytes) : Bytes :=
  let b := tags.flatMap tagSeg
  if tags.isEmpty then b else b.dropLast

/-- Note::to_hash_str: the canonical hash preimage written into the 1536-byte
buffer (the model returns the written prefix; writing past 1536 bytes would
panic in Rust, which theorems exclude via a length hypothesis). -/
def to_hash_str (n : Note) : Bytes :=
  bs "[0,\x22" ++ n.pubkey ++ bs "\x22," ++ to_decimal_str n.created_at ++ [44] ++
    n.kind.serialize ++ [44] ++ [91] ++ tagsSegRaw n.tags ++ bs "],\x22" ++
    (match n.content with | some c => c | none => []) ++ bs "\x22]"

/-- Note::to_json: the wire JSON written into the 1000-byte buffer (same
modelling convention as to_hash_str). -/
def to_json (n : Note) : Bytes :=
  bs "\x7b\x22content\x22:\x22" ++ (match n.content with | some c => c | none => []) ++
    bs "\x22,\x22created_at\x22:" ++ to_decimal_str n.created_at ++
    bs ",\x22id\x22:\x22" ++ n.id ++
    bs "\x22,\x22kind\x22:" ++ n.kind.serialize ++
    bs ",\x22pubkey\x22:\x22" ++ n.pubkey ++
    bs "\x22,\x22sig\x22:\x22" ++ n.sig ++
    bs "\x22,\x22tags\x22:[" ++ tagsSegRaw n.tags ++ bs "]\x7d"

/-! ## The builder (src/lib.rs, NoteBuilder) -/

/-- KeyPair::from_seckey_str inside Note::new_builder: hex-decode the
64-character secret key and require a valid secp256k1 scalar. -/
def new_builder (privkey : Bytes) : Outcome Nat :=
  match hexDecode privkey with
  | none => .err .invalidPrivkey
  | some sk =>
    if sk.length ≠ 32 then .err .invalidPrivkey
    else if 0 < beNat sk ∧ beNat sk < secp_n then .ok (beNat sk) else .err .invalidPrivkey

/-- NoteBuilder::build for a builder holding secret d and the given
configuration: set created_at, set_pubkey, set_id, set_sig, in that order. -/
def buildNote (d : Nat) (kind : NoteKinds) (content : Option Bytes) (tags : List Bytes)
    (created_at : Nat) (aux : Bytes) : Outcome Note :=
  match xOnly d with
  | none => .panicked
  | some (px, _) =>
    let n0 : Note :=
      { id := List.replicate 64 0, pubkey := hexEncode (be32 px), created_at := created_at,
        kind := kind, tags := tags, content := content, sig := List.replicate 128 0 }
    let idHex := hexEncode (sha256 (to_hash_str n0))
    let n1 : Note := { n0 with id := idHex }
    match hexDecode idHex with
    | none => .err .internalSigningError
    | some msg32 =>
      match schnorrSign msg32 d aux with
      | none => .panicked
      | some sigBytes => .ok { n1 with sig := hexEncode sigBytes }

/-- Note::new_builder followed by configuration and build, as the staged
builder chains them (content/tags/kind set before build). -/
def buildFromPrivkey (privkey : Bytes) (kind : NoteKinds) (content : Option Bytes)
    (tags : List Bytes) (created_at : Nat) (aux : Bytes) : Outcome Note :=
  match new_builder privkey with
  | .ok d => buildNote d kind content tags created_at aux
  | .err e => .err e
  | .panicked => .panicked

/-- Note::validate_signature.  Hex-decode failures and invalid public keys
hit `expect` in the source, so they are panics, not errors. -/
def validate_signature (n : Note) : Outcome Unit :=
  match hexDecode n.id with
  | none => .panicked
  | some msg32 =>
    if msg32.length ≠ 32 then .panicked
    else
      match hexDecode n.sig with
      | none => .panicked
      | some sigBytes =>
        if sigBytes.length ≠ 64 then .panicked
        else
          match hexDecode n.pubkey with
          | none => .panicked
          | some pkBytes =>
            if pkBytes.length ≠ 32 then .panicked
            else
              match liftX (beNat pkBytes) with
              | none => .panicked
              | some _ =>
                if schnorrVerify msg32 (beNat pkBytes) sigBytes then .ok ()
                else .err .invalidSignature

end Nostr

namespace Nostr

/-! ## JSON reader (src/parse_json.rs) -/

/-- Checked slice `&value[a..b]`: none models the Rust slice panic when
a > b or b > len. -/
def sliceChecked (l : Bytes) (a b : Nat) : Option Bytes :=
  if a ≤ b ∧ b ≤ l.length then some ((l.drop a).take (b - a)) else none

/-- u16/u32::from_str_radix(s, 10): optional leading '+', decimal digits,
bounded by `limit`. -/
def parseRadix10 (limit : Nat) (s : Bytes) : Option Nat :=
  let s := if s.headD 0 = 43 then s.tail else s
  if s.isEmpty then none
  else if s.all (fun c => 48 ≤ c ∧ c ≤ 57) then
    let v := s.foldl (fun a c => a * 10 + (c - 48)) 0
    if v < limit then some v else none
  else none

/-- parse_json::remove_whitespace worker: the flag starts true and every
quote toggles it; spaces are dropped while the flag is set.  Capacity of the
String<1000> output is checked per push. -/
def removeWsGo : Bytes → Bool → Bytes → Except Err Bytes
  | [], _, acc => .ok acc
  | c :: t, rw, acc =>
    let rw2 := if c = 34 then !rw else rw
    if c = 32 ∧ rw2 then removeWsGo t rw2 acc
    else if acc.length + 1 > 1000 then .error .contentOverflow
    else removeWsGo t rw2 (acc ++ [c])

def removeWhitespace (input : Bytes) : Except Err Bytes := removeWsGo input true []

/-- parse_json::remove_array_chars worker into a String<150>. -/
def removeArrGo : Bytes → Bytes → Except Err Bytes
  | [], acc => .ok acc
  | c :: t, acc =>
    if c ≠ 91 ∧ c ≠ 93 ∧ c ≠ 34 then
      if acc.length + 1 > 150 then .error .contentOverflow else removeArrGo t (acc ++ [c])
    else removeArrGo t acc

def removeArrayChars (v : Bytes) : Except Err Bytes := removeArrGo v []

/-- parse_json::get_end_index. -/
def getEndIndex (locs : List Nat) (thisPos maxLen : Nat) (isString : Bool) : Nat :=
  if thisPos = locs.length - 1 then maxLen - (if isString then 2 else 1)
  else locs.getD (thisPos + 1) 0 - (if isString then 2 else 1)

/-- parse_json::find_index: binary_search on the sorted, duplicate-free
location vector, which returns the element's index. -/
def findIndex (locs : List Nat) (searchElement : Nat) : Nat := locs.indexOf searchElement

def insertNat (x : Nat) : List Nat → List Nat
  | [] => [x]
  | y :: t => if x ≤ y then x :: y :: t else y :: insertNat x t

/-- sort_unstable on the location vector (insertion sort; any comparison
sort agrees on the duplicate-free inputs that occur here). -/
def sortNat (l : List Nat) : List Nat := l.foldr insertNat []

def patContent : Bytes := bs "\x22content\x22:\x22"
def patCreated : Bytes := bs "\x22created_at\x22:"
def patKind : Bytes := bs "\x22kind\x22:"
def patId : Bytes := bs "\x22id\x22:\x22"
def patPubkey : Bytes := bs "\x22pubkey\x22:\x22"
def patSig : Bytes := bs "\x22sig\x22:\x22"
def patTags : Bytes := bs "\x22tags\x22:"

/-- The tags loop of TryFrom<&str> for Note: for each piece of the split on
`],`, skip empty pieces, strip array characters, and push onto the
five-element tag vector (a sixth push is TooManyTags). -/
def tagsFoldGo : List Bytes → List Bytes → Except Err (List Bytes)
  | [], acc => .ok acc
  | piece :: rest, acc =>
    if piece.length > 0 then
      match removeArrayChars piece with
      | .error e => .error e
      | .ok t =>
        if acc.length ≥ 5 then .error .tooManyTags else tagsFoldGo rest (acc ++ [t])
    else tagsFoldGo rest acc

/-- Field extraction of TryFrom<&str> for Note (everything before signature
validation), with the source's extraction order: content, id, pubkey, sig,
kind, created_at, tags. -/
def noteParseFields (input : Bytes) : Outcome Note :=
  match removeWhitespace input with
  | .error e => .err e
  | .ok value =>
    match findSub patContent value, findSub patCreated value, findSub patKind value,
          findSub patId value, findSub patPubkey value, findSub patSig value,
          findSub patTags value with
    | some contentLoc, some createdLoc, some kindLoc, some idLoc, some pubkeyLoc,
        some sigLoc, some tagsLoc =>
      let locs := sortNat [contentLoc, createdLoc, kindLoc, idLoc, pubkeyLoc, sigLoc, tagsLoc]
      match sliceChecked value (contentLoc + 11)
          (getEndIndex locs (findIndex locs contentLoc) value.length true) with
      | none => .panicked
      | some contentData =>
        if contentData.length > 400 then .panicked
        else
          match sliceChecked value (idLoc + 6)
              (getEndIndex locs (findIndex locs idLoc) value.length true) with
          | none => .panicked
          | some idData =>
            if idData.length > 64 then .panicked
            else
              match sliceChecked value (pubkeyLoc + 10)
                  (getEndIndex locs (findIndex locs pubkeyLoc) value.length true) with
              | none => .panicked
              | some pubkeyData =>
                if pubkeyData.length > 64 then .panicked
                else
                  match sliceChecked value (sigLoc + 7)
                      (getEndIndex locs (findIndex locs sigLoc) value.length true) with
                  | none => .panicked
                  | some sigData =>
                    if sigData.length > 128 then .panicked
                    else
                      match sliceChecked value (kindLoc + 7)
                          (getEndIndex locs (findIndex locs kindLoc) value.length false) with
                      | none => .panicked
                      | some kindData =>
                        match parseRadix10 65536 kindData with
                        | none => .err .malformedContent
                        | some kindV =>
                          match sliceChecked value (createdLoc + 13)
                              (getEndIndex locs (findIndex locs createdLoc) value.length false) with
                          | none => .panicked
                          | some createdData =>
                            match parseRadix10 4294967296 createdData with
                            | none => .err .malformedContent
                            | some createdV =>
                              match sliceChecked value (tagsLoc + 7)
                                  (getEndIndex locs (findIndex locs tagsLoc) value.length true) with
                              | none => .panicked
                              | some tagsData =>
                                match tagsFoldGo (splitSeq [93, 44] tagsData) [] with
                                | .error e => .err e
                                | .ok tags =>
                                  .ok { id := idData ++ List.replicate (64 - idData.length) 0,
                                        pubkey := pubkeyData ++ List.replicate (64 - pubkeyData.length) 0,
                                        created_at := createdV,
                                        kind := noteKindsFromU16 kindV,
                                        tags := tags,
                                        content := if contentData.length > 0 then some contentData
                                                   else none,
                                        sig := sigData ++ List.replicate (128 - sigData.length) 0 }
    | _, _, _, _, _, _, _ => .err .eventMissingField

/-- TryFrom<&str> for Note: field extraction followed by signature
validation; the parsed note is returned unchanged on success. -/
def noteTryFrom (input : Bytes) : Outcome Note :=
  match noteParseFields input with
  | .ok n =>
    match validate_signature n with
    | .ok _ => .ok n
    | .err e => .err e
    | .panicked => .panicked
  | .err e => .err e
  | .panicked => .panicked

/-! ## Relay responses (src/relay_responses.rs) -/

inductive RespTy where
  | auth | count | eose | event | notice | okMsg
  deriving DecidableEq

/-- TryFrom<&str> for ResponseTypes: prefix discrimination. -/
def responseTryFrom (v : Bytes) : Except Err RespTy :=
  if (bs "[\x22AUTH\x22,").isPrefixOf v then .ok .auth
  else if (bs "[\x22COUNT\x22,").isPrefixOf v then .ok .count
  else if (bs "[\x22EOSE\x22,").isPrefixOf v then .ok .eose
  else if (bs "[\x22EVENT\x22,").isPrefixOf v then .ok .event
  else if (bs "[\x22NOTICE\x22,").isPrefixOf v then .ok .notice
  else if (bs "[\x22OK\x22,").isPrefixOf v then .ok .okMsg
  else .error .invalidType

structure AuthMessage where
  challenge_string : Bytes
  deriving DecidableEq

/-- TryFrom<&str> for AuthMessage: start index AUTH_STR.len() + 2 = 10 and
end index value.len() - 2, sliced after the size check (debug-mode usize
underflow of the size check is a panic). -/
def authTryFrom (v : Bytes) : Outcome AuthMessage :=
  match responseTryFrom v with
  | .error e => .err e
  | .ok ty =>
    if ty ≠ .auth then .err .typeNotAccepted
    else
      let startIndex := 10
      let endIndex := v.length - 2
      if endIndex < startIndex then .panicked
      else if endIndex - startIndex > 64 then .err .contentOverflow
      else
        match sliceChecked v startIndex endIndex with
        | none => .panicked
        | some challenge =>
          if challenge.length > 64 then .panicked else .ok ⟨challenge⟩

/-! ## Query builder (src/query.rs) -/

structure Query where
  ids : List Bytes
  authors : List Bytes
  kinds : List NoteKinds
  ref_events : List Bytes
  ref_pks : List Bytes
  since : Option Nat
  until' : Option Nat
  limit : Option Nat
  deriving DecidableEq

def emptyQuery : Query :=
  { ids := [], authors := [], kinds := [], ref_events := [], ref_pks := [],
    since := none, until' := none, limit := none }

/-- The element loop for ids/authors/#p: quote, value bytes, closing quote,
comma; the trailing comma is popped and `]` pushed. -/
def quotedElems (vals : List Bytes) : Bytes :=
  (vals.flatMap (fun v => [34] ++ v ++ [34, 44])).dropLast ++ [93]

/-- The element loop for #e (ref_events) as written in the source: the
closing quote push is absent there. -/
def refEventElems (vals : List Bytes) : Bytes :=
  (vals.flatMap (fun v => [34] ++ v ++ [44])).dropLast ++ [93]

/-- The kinds element loop: serialized kind then comma; trailing comma
popped and `]` pushed. -/
def kindElems (ks : List NoteKinds) : Bytes :=
  (ks.flatMap (fun k => k.serialize ++ [44])).dropLast ++ [93]

/-- Query::to_json.  The add_obj_comma flag of the source emits a comma
before every section except the first, which is the intercalation below;
the per-push capacity checks (1000 bytes) are assumed met, as in every use
in this development. -/
def queryToJson (q : Query) : Bytes :=
  let segs : List Bytes :=
    (if q.ids.isEmpty then [] else [bs "\x22id\x22:[" ++ quotedElems q.ids]) ++
    (if q.authors.isEmpty then [] else [bs "\x22authors\x22:[" ++ quotedElems q.authors]) ++
    (if q.ref_pks.isEmpty then [] else [bs "\x22#p\x22:[" ++ quotedElems q.ref_pks]) ++
    (if q.ref_events.isEmpty then [] else [bs "\x22#e\x22:[" ++ refEventElems q.ref_events]) ++
    (if q.kinds.isEmpty then [] else [bs "\x22kinds\x22:[" ++ kindElems q.kinds]) ++
    (match q.since with | some v => [bs "\x22since\x22:" ++ to_decimal_str v] | none => []) ++
    (match q.until' with | some v => [bs "\x22until\x22:" ++ to_decimal_str v] | none => []) ++
    (match q.limit with | some v => [bs "\x22limit\x22:" ++ to_decimal_str v] | none => [])
  [123] ++ List.intercalate [44] segs ++ [125]

/-- Query::serialize_to_relay. -/
def querySerializeToRelay (q : Query) (subId : Bytes) : Bytes :=
  bs "[\x22REQ\x22,\x22" ++ subId ++ bs "\x22," ++ queryToJson q ++ [93]

end Nostr

namespace Nostr

/-! ## NIP-04 codec (src/nip04.rs) -/

/-- nip04::generate_shared_key: normalize the x-only key by the 02 prefix
(the even-y lift) and take the x coordinate of sk times that point. -/
def generateSharedKey (sk : Nat) (pkx : Nat) : Option Bytes :=
  match liftX pkx with
  | none => none
  | some (x, y) =>
    match toAffine (jMul sk ⟨x, y, 1⟩) with
    | none => none
    | some (sx, _) => some (be32 sx)

/-- The encrypt loop of nip04::encrypt: slice up to 16 input bytes, pad via
pad_block (the pad byte is 16 - slice length), encrypt in CBC chaining. -/
def cbcEncLoop (key : Bytes) : Nat → Bytes → Bytes → Bytes
  | 0, _, _ => []
  | fuel+1, chain, text =>
    let blk := text.take 16
    let padLen := 16 - blk.length
    let padded := blk ++ List.replicate padLen padLen
    let enc := aesEncBlock key (xorBytes padded chain)
    enc ++ cbcEncLoop key fuel enc (text.drop 16)

/-- The decrypt loop of nip04::decrypt (full 16-byte blocks, CBC). -/
def cbcDecLoop (key : Bytes) : Nat → Bytes → Bytes → Bytes
  | 0, _, _ => []
  | fuel+1, chain, ctext =>
    let blk := ctext.take 16
    let dec := xorBytes (aesDecBlock key blk) chain
    dec ++ cbcDecLoop key fuel blk (ctext.drop 16)

/-- UTF-8 encoding of a code point below 256: what heapless String::push
does with the decrypted byte cast to char. -/
def utf8enc (b : Nat) : Bytes :=
  if b < 128 then [b] else [192 ||| (b >>> 6), 128 ||| (b &&& 63)]

/-- The padding strip of nip04::decrypt: read the final decrypted byte,
treat it as the padding width when it is below 17 and as no padding
otherwise, and cut that many bytes off the end. -/
def stripPadding (utf8 : Bytes) (last : Nat) : Bytes :=
  utf8.take (utf8.length - (if last < 17 then last else 0))

/-- nip04::encrypt.  sk is the sender secret scalar, pkx the x-only
recipient key, iv the caller-supplied 16 bytes. -/
def nip04Encrypt (sk : Nat) (pkx : Nat) (text : Bytes) (iv : Bytes) : Outcome Bytes :=
  match generateSharedKey sk pkx with
  | none => .err .internalPubkeyError
  | some key =>
    let totalBlocks := text.length / 16 + 1
    let ciphertext := cbcEncLoop key totalBlocks iv text
    if ciphertext.length > 400 then .panicked
    else if 4 * ((ciphertext.length + 2) / 3) > 400 then .err .encodeError
    else
      let encoded := b64Encode ciphertext
      let ivStr := b64Encode iv
      if encoded.length > 400 then .err .contentOverflow
      else if encoded.length + 4 > 400 then .err .contentOverflow
      else if encoded.length + 4 + ivStr.length > 400 then .err .contentOverflow
      else .ok (encoded ++ bs "?iv=" ++ ivStr)

/-- nip04::decrypt. -/
def nip04Decrypt (sk : Nat) (pkx : Nat) (content : Bytes) : Outcome Bytes :=
  let parts := splitSeq (bs "?iv=") content
  if parts.length > 2 then .panicked
  else if parts.length ≠ 2 then .err .malformedContent
  else
    match b64Decode (parts.getD 0 []) with
    | none => .err .encodeError
    | some enc =>
      if enc.length > 400 then .err .encodeError
      else
        match b64Decode (parts.getD 1 []) with
        | none => .err .encodeError
        | some iv =>
          if iv.length > 400 then .err .encodeError
          else if iv.length ≠ 16 then .panicked
          else
            match generateSharedKey sk pkx with
            | none => .err .internalPubkeyError
            | some key =>
              let totalBlocks := enc.length / 16
              let utf8 := cbcDecLoop key totalBlocks iv (enc.take (totalBlocks * 16))
              match utf8.getLast? with
              | none => .err .internalError
              | some last =>
                let out := (stripPadding utf8 last).flatMap utf8enc
                if out.length > 400 then .err .contentOverflow else .ok out

end Nostr

namespace Nostr

/-! ## Reference fixtures

The concrete values of the crate's own test suite (src/lib.rs tests,
src/nip04.rs tests, src/query.rs tests), used to validate this embedding
byte-for-byte and as concrete inputs for the claims. -/

def dummyNote : Note :=
  { id := [], pubkey := [], created_at := 0, kind := .shortNote, tags := [],
    content := none, sig := [] }

def refPrivkey : Bytes := bs "a5084b35a58e3e1a26f5efb46cb9dbada73191526aa6d11bccb590cbeb2d8fa3"

/-- The note of get_note(): content "esptest", no tags, created_at
1686880020, aux_rand all zero. -/
def refNoteOutcome : Outcome Note :=
  buildFromPrivkey refPrivkey .shortNote (some (bs "esptest")) [] 1686880020
    (List.replicate 32 0)

def refNote : Note := match refNoteOutcome with | .ok n => n | _ => dummyNote

/-- The note of test_note_with_tag: one tag `l,bitcoin`. -/
def tagNoteOutcome : Outcome Note :=
  buildFromPrivkey refPrivkey .shortNote (some (bs "esptest")) [bs "l,bitcoin"] 1686880020
    (List.replicate 32 0)

def tagNote : Note := match tagNoteOutcome with | .ok n => n | _ => dummyNote

/-- The note of test_auth_msg: create_auth with challenge `challenge_me`
and relay `wss://relay.damus.io`, built at 1691712199. -/
def authNoteOutcome : Outcome Note :=
  buildFromPrivkey refPrivkey .auth none
    [bs "challenge,challenge_me", bs "relay,wss://relay.damus.io"] 1691712199
    (List.replicate 32 0)

def authNote : Note := match authNoteOutcome with | .ok n => n | _ => dummyNote

/-! ## Validation of the embedding against the crate's test vectors -/

/-- FIPS 180-4 check of the SHA-256 embedding. -/
theorem vector_sha256_abc :
    hexEncode (sha256 (bs "abc")) =
      bs "ba7816bf8f01cfea414140de5dae2223b00361a396177a9cb410ff61f20015ad" := by
  decide

/-- The hash preimage of hashstr_test, byte for byte. -/
theorem vector_hashstr :
    to_hash_str refNote =
      bs "[0,\x22098ef66bce60dd4cf10b4ae5949d1ec6dd777ddeb4bc49b47f97275a127a63cf\x22,1686880020,1,[],\x22esptest\x22]" := by
  decide

/-- The wire JSON of json_test, byte for byte (covers the pubkey of
pubkey_test, the id of id_test and the Schnorr signature produced with
aux_rand = [0; 32]). -/
theorem vector_ref_json :
    to_json refNote =
      bs "\x7b\x22content\x22:\x22esptest\x22,\x22created_at\x22:1686880020,\x22id\x22:\x22b515da91ac5df638fae0a6e658e03acc1dda6152dd2107d02d5702ccfcf927e8\x22,\x22kind\x22:1,\x22pubkey\x22:\x22098ef66bce60dd4cf10b4ae5949d1ec6dd777ddeb4bc49b47f97275a127a63cf\x22,\x22sig\x22:\x2289a4f1ad4b65371e6c3167ea8cb13e73cf64dd5ee71224b1edd8c32ad817af2312202cadb2f22f35d599793e8b1c66b3979d4030f1e7a252098da4a4e0c48fab\x22,\x22tags\x22:[]\x7d" := by
  decide

end Nostr

namespace Nostr

/-- The tagged wire JSON of test_note_with_tag (id f5a693…, tags
[["l","bitcoin"]]). -/
theorem vector_tag_json :
    to_json tagNote =
      bs "\x7b\x22content\x22:\x22esptest\x22,\x22created_at\x22:1686880020,\x22id\x22:\x22f5a693c9a4add3739a4186c0422f925981f75cb1f7a0adfc48852e54973415a6\x22,\x22kind\x22:1,\x22pubkey\x22:\x22098ef66bce60dd4cf10b4ae5949d1ec6dd777ddeb4bc49b47f97275a127a63cf\x22,\x22sig\x22:\x22ff68b2c739f6d19df47c5ae5f150895e11876458afcf8bf169636e55c2b6cce1230d0c54ce9869b555b3395018c1efdad5b4c5a4afbc2748e1f8c3a34da787ec\x22,\x22tags\x22:[[\x22l\x22,\x22bitcoin\x22]]\x7d" := by
  decide

/-- The auth-note wire JSON of test_auth_msg (kind 22242, challenge and
relay tags, empty content). -/
theorem vector_auth_json :
    to_json authNote =
      bs "\x7b\x22content\x22:\x22\x22,\x22created_at\x22:1691712199,\x22id\x22:\x22762b497576a41636c41eb5c74c0eb80894ecb2444c3e5117da0d00d9870d914a\x22,\x22kind\x22:22242,\x22pubkey\x22:\x22098ef66bce60dd4cf10b4ae5949d1ec6dd777ddeb4bc49b47f97275a127a63cf\x22,\x22sig\x22:\x22afb892c683222936537ac1ea1ecdade47adf572e96773dfc6ca021d929d3485ecd7d086b14503e545312f61bd8ffdbd48887cd27b3ab2e4f70aab62a4a1afd1b\x22,\x22tags\x22:[[\x22challenge\x22,\x22challenge_me\x22],[\x22relay\x22,\x22wss://relay.damus.io\x22]]\x7d" := by
  decide

/-- The (brace-less) event JSON string of test_from_json and
json_sig_invalid. -/
def refJsonTrunc : Bytes :=
  bs "\x7b\x22content\x22:\x22esptest\x22,\x22created_at\x22:1686880020,\x22id\x22:\x22b515da91ac5df638fae0a6e658e03acc1dda6152dd2107d02d5702ccfcf927e8\x22,\x22kind\x22:1,\x22pubkey\x22:\x22098ef66bce60dd4cf10b4ae5949d1ec6dd777ddeb4bc49b47f97275a127a63cf\x22,\x22sig\x22:\x2289a4f1ad4b65371e6c3167ea8cb13e73cf64dd5ee71224b1edd8c32ad817af2312202cadb2f22f35d599793e8b1c66b3979d4030f1e7a252098da4a4e0c48fab\x22,\x22tags\x22:[]"

/-- Parsing of test_from_json returns exactly the built note. -/
theorem vector_parse_refjson : noteTryFrom refJsonTrunc = .ok refNote := by
  decide

/-- json_sig_invalid: the same event with the id's first byte changed from
b to c is rejected as InvalidSignature. -/
theorem vector_parse_sig_invalid :
    noteTryFrom
      (bs "\x7b\x22content\x22:\x22esptest\x22,\x22created_at\x22:1686880020,\x22id\x22:\x22c515da91ac5df638fae0a6e658e03acc1dda6152dd2107d02d5702ccfcf927e8\x22,\x22kind\x22:1,\x22pubkey\x22:\x22098ef66bce60dd4cf10b4ae5949d1ec6dd777ddeb4bc49b47f97275a127a63cf\x22,\x22sig\x22:\x2289a4f1ad4b65371e6c3167ea8cb13e73cf64dd5ee71224b1edd8c32ad817af2312202cadb2f22f35d599793e8b1c66b3979d4030f1e7a252098da4a4e0c48fab\x22,\x22tags\x22:[]")
      = .err .invalidSignature := by
  decide

def fromSkey : Nat := 0xaecb67d55da9b658cd419013d7026f30ee23c5c5b032948e84e8ae523b559f92
def mySkey : Nat := 0xa5084b35a58e3e1a26f5efb46cb9dbada73191526aa6d11bccb590cbeb2d8fa3
def myPkx : Nat := ((xOnly mySkey).getD (0, 0)).1
def fromPkx : Nat := ((xOnly fromSkey).getD (0, 0)).1

/-- test_decrypt of src/nip04.rs, byte for byte. -/
theorem vector_nip04_decrypt :
    nip04Decrypt fromSkey myPkx
      (bs "sZhES/uuV1uMmt9neb6OQw6mykdLYerAnTN+LodleSI=?iv=eM0mGFqFhxmmMwE4YPsQMQ==")
      = .ok (bs "hello from the internet") := by
  decide

/-- test_multiple of src/query.rs, byte for byte. -/
theorem vector_query_multiple :
    querySerializeToRelay
      { emptyQuery with
          ref_pks := [List.replicate 64 97, List.replicate 64 98],
          kinds := [.iot, .regular 1005],
          since := some 10000, until' := some 10001, limit := some 10 }
      (bs "subscription_1")
      = bs "[\x22REQ\x22,\x22subscription_1\x22,\x7b\x22#p\x22:[\x22aaaaaaaaaaaaaaaaaaaaaaaaaaaaaaaaaaaaaaaaaaaaaaaaaaaaaaaaaaaaaaaa\x22,\x22bbbbbbbbbbbbbbbbbbbbbbbbbbbbbbbbbbbbbbbbbbbbbbbbbbbbbbbbbbbbbbbb\x22],\x22kinds\x22:[5732,1005],\x22since\x22:10000,\x22until\x22:10001,\x22limit\x22:10\x7d]" := by
  decide

/-- test_auth of src/relay_responses.rs: the relay message with a space
after the comma parses to the full challenge. -/
theorem vector_auth_message :
    authTryFrom (bs "[\x22AUTH\x22, \x22encrypt me\x22]") = .ok ⟨bs "encrypt me"⟩ := by
  decide

end Nostr

namespace Nostr

/-! ## Claims -/

def pk1x : Nat := ((xOnly 1).getD (0, 0)).1
def pk2x : Nat := ((xOnly 2).getD (0, 0)).1

/-- The plaintext é, two UTF-8 bytes. -/
def c3Text : Bytes := [195, 169]

def c3CipherOutcome : Outcome Bytes := nip04Encrypt 1 pk2x c3Text (List.replicate 16 0)

def c3Cipher : Bytes := match c3CipherOutcome with | .ok c => c | _ => []

/-- C3: the NIP-04 round trip `decrypt(sk_B, pub(sk_A), encrypt(sk_A,
pub(sk_B), text, iv)) == text` fails on the code for non-ASCII text: at the
valid keys 1 and 2, the two-byte plaintext é encrypts successfully, but
decryption re-encodes each decrypted byte ≥ 0x80 as a two-byte UTF-8
character and returns the four bytes of Ã© instead. -/
theorem claim_C3 :
    c3CipherOutcome = .ok c3Cipher ∧
    nip04Decrypt 2 pk1x c3Cipher = .ok [195, 131, 194, 169] ∧
    ([195, 131, 194, 169] : Bytes) ≠ c3Text := by
  decide

/-- The reference event JSON with the first id byte changed from b to z (a
non-hex byte). -/
def refJsonIdZ : Bytes :=
  bs "\x7b\x22content\x22:\x22esptest\x22,\x22created_at\x22:1686880020,\x22id\x22:\x22z515da91ac5df638fae0a6e658e03acc1dda6152dd2107d02d5702ccfcf927e8\x22,\x22kind\x22:1,\x22pubkey\x22:\x22098ef66bce60dd4cf10b4ae5949d1ec6dd777ddeb4bc49b47f97275a127a63cf\x22,\x22sig\x22:\x2289a4f1ad4b65371e6c3167ea8cb13e73cf64dd5ee71224b1edd8c32ad817af2312202cadb2f22f35d599793e8b1c66b3979d4030f1e7a252098da4a4e0c48fab\x22,\x22tags\x22:[]"

/-- The reference event JSON with the first id byte changed from b to c
(still hex), as in the crate's json_sig_invalid test. -/
def refJsonIdC : Bytes :=
  bs "\x7b\x22content\x22:\x22esptest\x22,\x22created_at\x22:1686880020,\x22id\x22:\x22c515da91ac5df638fae0a6e658e03acc1dda6152dd2107d02d5702ccfcf927e8\x22,\x22kind\x22:1,\x22pubkey\x22:\x22098ef66bce60dd4cf10b4ae5949d1ec6dd777ddeb4bc49b47f97275a127a63cf\x22,\x22sig\x22:\x2289a4f1ad4b65371e6c3167ea8cb13e73cf64dd5ee71224b1edd8c32ad817af2312202cadb2f22f35d599793e8b1c66b3979d4030f1e7a252098da4a4e0c48fab\x22,\x22tags\x22:[]"

/-- C4 counterexample: the reference event is accepted by Note::try_from,
yet changing the single id byte b to the non-hex byte z makes try_from
panic (the expect on the failed hex decode in validate_signature) rather
than return InvalidSignature, refuting the claim that any single-byte id
change yields the error InvalidSignature. -/
theorem claim_C4_counterexample :
    (noteTryFrom refJsonTrunc).isOk = true ∧
    noteTryFrom refJsonIdZ = .panicked ∧
    (Outcome.panicked : Outcome Note) ≠ .err .invalidSignature := by
  decide

/-- C4 as amended: changing a single byte of the id of an accepted event to
a different hex character is rejected with InvalidSignature (Schnorr
verification fails), shown at the reference event, while changing it to a
non-hex character makes try_from panic inside validate_signature instead of
returning an error. -/
theorem claim_C4_amended :
    noteTryFrom refJsonIdC = .err .invalidSignature ∧
    noteTryFrom refJsonIdZ = .panicked := by
  decide

/-- C7: on the spec's exact AUTH shape `["AUTH","<challenge>"]` (no space
after the comma) the parser assumes the relay format with a space, so the
returned challenge drops its first character: `["AUTH","ab"]` is accepted
with challenge "b" instead of "ab". -/
theorem claim_C7 :
    authTryFrom (bs "[\x22AUTH\x22,\x22ab\x22]") = .ok ⟨bs "b"⟩ ∧ bs "b" ≠ bs "ab" := by
  decide

/-- C8: serializing a query whose only filter is one ref_event (64 a bytes)
emits the element with an opening quote but no closing quote before `]`,
because the #e loop in Query::to_json omits the closing-quote push its
sibling loops have; the claim that every byte-array element is enclosed in
double quotes fails on the #e field. -/
theorem claim_C8 :
    querySerializeToRelay { emptyQuery with ref_events := [List.replicate 64 97] } (bs "s")
      = bs "[\x22REQ\x22,\x22s\x22,\x7b\x22#e\x22:[\x22" ++ List.replicate 64 97 ++ bs "]\x7d]" ∧
    querySerializeToRelay { emptyQuery with ref_events := [List.replicate 64 97] } (bs "s")
      ≠ bs "[\x22REQ\x22,\x22s\x22,\x7b\x22#e\x22:[\x22" ++ List.replicate 64 97 ++ bs "\x22]\x7d]" := by
  decide

end Nostr

namespace Nostr

/-- Claim C6 statement. -/
theorem claim_C6 (utf8 : Bytes) (last k : Nat)
    (hlast : utf8.getLast? = some last) (hlen : utf8.length = 16 * k) :
    (last < 17 → ∃ t, t.length = last ∧ utf8 = stripPadding utf8 last ++ t) ∧
    (17 ≤ last → stripPadding utf8 last = utf8) := by
  have hne : utf8 ≠ [] := by
    intro h; rw [h] at hlast; simp at hlast
  have hpos : 0 < utf8.length := List.length_pos.mpr hne
  have hk : 1 ≤ k := by omega
  have h16 : 16 ≤ utf8.length := by omega
  constructor
  · intro h
    refine ⟨utf8.drop (utf8.length - last), ?_, ?_⟩
    · rw [List.length_drop]; omega
    · rw [stripPadding, if_pos h]
      exact (List.take_append_drop _ _).symm
  · intro h
    rw [stripPadding, if_neg (by omega)]
    simp

def padEx : Bytes := [104, 101, 108, 108, 111, 32, 119, 111, 114, 108, 100, 33, 33, 3, 3, 3]

theorem claim_C6_witness :
    (3 < 17 → ∃ t, t.length = 3 ∧ padEx = stripPadding padEx 3 ++ t) ∧
    (17 ≤ 3 → stripPadding padEx 3 = padEx) :=
  claim_C6 padEx 3 1 (by decide) (by decide)

/-- Shortest decimal representation, from the spec side: the base-10 digit
list (little-endian, no leading zeros) rendered most-significant first. -/
def specShortestDecimal (n : Nat) : Bytes :=
  if n = 0 then [48] else ((Nat.digits 10 n).map (fun d => 48 + d)).reverse

theorem decRevF_eq_digits (fuel : Nat) : ∀ n, n < 10 ^ fuel →
    decRevF fuel n = (Nat.digits 10 n).map (fun d => 48 + d) := by
  induction fuel with
  | zero => intro n h; interval_cases n; simp [decRevF]
  | succ f ih =>
    intro n h
    by_cases h0 : n = 0
    · simp [decRevF, h0]
    · rw [decRevF, if_neg h0, Nat.digits_def' (by norm_num : 1 < 10) (Nat.pos_of_ne_zero h0)]
      rw [ih (n / 10) (by
        rw [Nat.div_lt_iff_lt_mul (by norm_num : 0 < 10)]
        calc n < 10 ^ (f + 1) := h
          _ = 10 ^ f * 10 := by ring)]
      simp

end Nostr

namespace Nostr

theorem foldr_ofDigits (ds : List Nat) :
    ds.foldr (fun d a => a * 10 + d) 0 = Nat.ofDigits 10 ds := by
  induction ds with
  | nil => simp [Nat.ofDigits]
  | cons d t ih => simp [Nat.ofDigits, ih]; ring

theorem parseRadix10_digits (limit : Nat) (ds : List Nat) (hne : ds ≠ [])
    (hd : ∀ d ∈ ds, d < 10) (hv : Nat.ofDigits 10 ds < limit) :
    parseRadix10 limit ((ds.map (fun d => 48 + d)).reverse) = some (Nat.ofDigits 10 ds) := by
  have hmem : ∀ c ∈ (ds.map (fun d => 48 + d)).reverse, 48 ≤ c ∧ c ≤ 57 := by
    intro c hc
    rw [List.mem_reverse, List.mem_map] at hc
    obtain ⟨d, hdm, rfl⟩ := hc
    have := hd d hdm
    omega
  have hne2 : (ds.map (fun d => 48 + d)).reverse ≠ [] := by
    simp [hne]
  unfold parseRadix10
  have hhead : ((ds.map (fun d => 48 + d)).reverse).headD 0 ≠ 43 := by
    cases hs : (ds.map (fun d => 48 + d)).reverse with
    | nil => simp
    | cons a t =>
      have ha : 48 ≤ a ∧ a ≤ 57 := hmem a (by rw [hs]; exact List.mem_cons_self a t)
      simp; omega
  rw [if_neg hhead]
  rw [if_neg (by simpa using hne2)]
  rw [if_pos (by
    rw [List.all_eq_true]
    intro c hc
    simpa using hmem c hc)]
  have hfold : ((ds.map (fun d => 48 + d)).reverse).foldl (fun a c => a * 10 + (c - 48)) 0
      = Nat.ofDigits 10 ds := by
    rw [List.foldl_reverse, List.foldr_map]
    have : ∀ (d : Nat) (a : Nat), (fun c (a : Nat) => a * 10 + (c - 48)) ((fun d => 48 + d) d) a
        = a * 10 + d := by intro d a; simp
    calc ds.foldr (fun d a => a * 10 + (48 + d - 48)) 0
        = ds.foldr (fun d a => a * 10 + d) 0 := by
          congr 1; funext d a; congr 1; omega
      _ = Nat.ofDigits 10 ds := foldr_ofDigits ds
  rw [hfold, if_pos hv]

/-- C5: converting any u16 value to NoteKinds is total, and serializing the
result yields exactly the shortest decimal representation of n, whose
numeric value round-trips through the textual form. -/
theorem claim_C5 (n : Nat) (h : n < 65536) :
    NoteKinds.serialize (noteKindsFromU16 n) = to_decimal_str n ∧
    to_decimal_str n = specShortestDecimal n ∧
    parseRadix10 65536 (to_decimal_str n) = some n := by
  have hdec : to_decimal_str n = specShortestDecimal n := by
    by_cases h0 : n = 0
    · simp [to_decimal_str, specShortestDecimal, h0]
    · rw [to_decimal_str, if_neg h0, specShortestDecimal, if_neg h0,
        decRevF_eq_digits 10 n (by omega)]
  refine ⟨?_, hdec, ?_⟩
  · unfold noteKindsFromU16
    split_ifs with h1 h2 h3 h4 h5 h6 h7 h8 <;>
      simp_all [NoteKinds.serialize, NoteKinds.numeric]
  · by_cases h0 : n = 0
    · subst h0; decide
    · rw [hdec, specShortestDecimal, if_neg h0]
      have := parseRadix10_digits 65536 (Nat.digits 10 n) (by
          simpa using Nat.digits_ne_nil_iff_ne_zero.mpr h0)
        (fun d hd => Nat.digits_lt_base (by norm_num) hd)
        (by rw [Nat.ofDigits_digits]; exact h)
      rw [Nat.ofDigits_digits] at this
      exact this

theorem claim_C5_witness :
    (NoteKinds.serialize (noteKindsFromU16 22242) = to_decimal_str 22242 ∧
     to_decimal_str 22242 = specShortestDecimal 22242 ∧
     parseRadix10 65536 (to_decimal_str 22242) = some 22242) :=
  claim_C5 22242 (by decide)

end Nostr

namespace Nostr

theorem splitSeqF_ne_nil (sep : Bytes) (fuel : Nat) (l : Bytes) : splitSeqF sep fuel l ≠ [] := by
  cases fuel with
  | zero => simp [splitSeqF]
  | succ f =>
    rw [splitSeqF]
    cases findSub sep l with
    | none => simp
    | some i => simp

theorem splitSeq_ne_nil (sep l : Bytes) : splitSeq sep l ≠ [] :=
  splitSeqF_ne_nil sep (l.length + 1) l

theorem intercalate_single (sep : Bytes) (a : Bytes) : List.intercalate sep [a] = a := by
  simp [List.intercalate]

theorem intercalate_cons₂ (sep a b : Bytes) (t : List Bytes) :
    List.intercalate sep (a :: b :: t) = a ++ sep ++ List.intercalate sep (b :: t) := by
  simp [List.intercalate, List.intersperse]

theorem flatMap_sep_ne_nil {α : Type} (f : α → Bytes) (sep : Nat) (x : α) (l : List α) :
    (x :: l).flatMap (fun y => f y ++ [sep]) ≠ [] := by
  simp

theorem flatMap_sep_dropLast {α : Type} (f : α → Bytes) (sep : Nat) :
    ∀ l : List α, l ≠ [] →
      (l.flatMap (fun x => f x ++ [sep])).dropLast = List.intercalate [sep] (l.map f) := by
  intro l
  induction l with
  | nil => intro h; exact absurd rfl h
  | cons x t ih =>
    intro _
    cases t with
    | nil =>
      show ((f x ++ [sep]) ++ []).dropLast = List.intercalate [sep] [f x]
      rw [List.append_nil, intercalate_single]
      simp
    | cons y t2 =>
      have h1 : (x :: y :: t2).flatMap (fun z => f z ++ [sep])
          = (f x ++ [sep]) ++ (y :: t2).flatMap (fun z => f z ++ [sep]) := by
        simp
      rw [h1, List.dropLast_append_of_ne_nil _ (flatMap_sep_ne_nil f sep y t2),
        ih (by simp),
        show List.map f (x :: y :: t2) = f x :: f y :: List.map f t2 from rfl,
        intercalate_cons₂,
        show List.map f (y :: t2) = f y :: List.map f t2 from rfl]

/-- The elements of a stored tag, each double-quoted, separated by commas
(written from the claim's words). -/
def quoteElems (t : Bytes) : Bytes :=
  List.intercalate [44] ((splitSeq [44] t).map (fun e => [34] ++ e ++ [34]))

/-- One tag in the canonical tags array. -/
def tagItem (t : Bytes) : Bytes := [91] ++ quoteElems t ++ [93]

/-- The canonical tags element per the claim: `[]` when there are no tags,
otherwise the bracketed tag items separated by commas. -/
def canonicalTags (tags : List Bytes) : Bytes :=
  if tags = [] then bs "[]"
  else [91] ++ List.intercalate [44] (tags.map tagItem) ++ [93]

/-- The canonical preimage per the claim:
[0,"pubkey-hex",created_at,kind,tags,"content"] with no insignificant
whitespace and raw content bytes. -/
def canonicalPreimage (n : Note) : Bytes :=
  bs "[0,\x22" ++ n.pubkey ++ bs "\x22," ++ to_decimal_str n.created_at ++ [44] ++
    n.kind.serialize ++ [44] ++ canonicalTags n.tags ++ bs ",\x22" ++
    (match n.content with | some c => c | none => []) ++ bs "\x22]"

theorem tagSeg_eq (t : Bytes) : tagSeg t = tagItem t ++ [44] := by
  have hes : splitSeq [44] t ≠ [] := splitSeq_ne_nil [44] t
  have hlam : (fun e => ([34] ++ e ++ [34, 44] : Bytes))
      = fun e => ([34] ++ e ++ [34]) ++ [44] := by
    funext e; simp
  have hflat : (splitSeq [44] t).flatMap (fun e => [34] ++ e ++ [34, 44])
      = (splitSeq [44] t).flatMap (fun e => ([34] ++ e ++ [34]) ++ [44]) := by
    rw [hlam]
  have hnn : (splitSeq [44] t).flatMap (fun e => ([34] ++ e ++ [34]) ++ [44]) ≠ [] := by
    cases hs : splitSeq [44] t with
    | nil => exact absurd hs hes
    | cons a l => exact flatMap_sep_ne_nil _ 44 a l
  rw [tagSeg, hflat, List.dropLast_append_of_ne_nil _ hnn,
    flatMap_sep_dropLast _ 44 _ hes]
  show [91] ++ quoteElems t ++ [93, 44] = tagItem t ++ [44]
  simp [tagItem, List.append_assoc]

theorem tagsSegRaw_eq (tags : List Bytes) (h : tags ≠ []) :
    tagsSegRaw tags = List.intercalate [44] (tags.map tagItem) := by
  have hfun : tagSeg = fun u => tagItem u ++ [44] := funext tagSeg_eq
  cases tags with
  | nil => exact absurd rfl h
  | cons a t =>
    show ((a :: t).flatMap tagSeg).dropLast = _
    rw [hfun, flatMap_sep_dropLast tagItem 44 (a :: t) (by simp)]

/-- The canonical writer and the claim's preimage description agree for
every note. -/
theorem to_hash_str_eq_canonical (n : Note) : to_hash_str n = canonicalPreimage n := by
  have hmid : [91] ++ tagsSegRaw n.tags ++ [93] = canonicalTags n.tags := by
    by_cases h : n.tags = []
    · rw [h]; decide
    · rw [tagsSegRaw_eq n.tags h, canonicalTags, if_neg h]
  have hsplit : (bs "],\x22" : Bytes) = [93] ++ bs ",\x22" := by decide
  rw [to_hash_str, canonicalPreimage, hsplit, ← hmid]
  simp [List.append_assoc]

end Nostr

namespace Nostr

/-- to_hash_str ignores the id and sig fields. -/
theorem to_hash_str_flat (idv pubv : Bytes) (ca : Nat) (k : NoteKinds)
    (tg : List Bytes) (ct : Option Bytes) (sigv idv2 sigv2 : Bytes) :
    to_hash_str { id := idv, pubkey := pubv, created_at := ca, kind := k,
                  tags := tg, content := ct, sig := sigv }
      = to_hash_str { id := idv2, pubkey := pubv, created_at := ca, kind := k,
                      tags := tg, content := ct, sig := sigv2 } := by
  simp only [to_hash_str]

/-- C1: every note returned by the staged builder carries as id the
lowercase hex of SHA-256 over the canonical preimage
[0,"pubkey-hex",created_at,kind,tags,"content"] described by the spec.  The
hypotheses delimit builder-reachable inputs: at most five tags (enforced by
the staged types), a u32 timestamp, and a preimage that fits the 1536-byte
buffer (beyond which the Rust code panics and returns no note). -/
theorem claim_C1 (privkey : Bytes) (kind : NoteKinds) (content : Option Bytes)
    (tags : List Bytes) (created_at : Nat) (aux : Bytes) (note : Note)
    (h5 : tags.length ≤ 5) (hca : created_at < 4294967296)
    (hbuf : (to_hash_str note).length ≤ 1536)
    (hb : buildFromPrivkey privkey kind content tags created_at aux = .ok note) :
    note.id = hexEncode (sha256 (canonicalPreimage note)) := by
  simp only [buildFromPrivkey] at hb
  generalize new_builder privkey = nb at hb
  cases nb with
  | err e => exact Outcome.noConfusion hb
  | panicked => exact Outcome.noConfusion hb
  | ok d =>
    have hb2 : buildNote d kind content tags created_at aux = .ok note := hb
    simp only [buildNote] at hb2
    generalize xOnly d = xo at hb2
    split at hb2
    · exact Outcome.noConfusion hb2
    · rename_i px y
      split at hb2
      · exact Outcome.noConfusion hb2
      · rename_i msg32 hmsg
        generalize schnorrSign msg32 d aux = sg at hb2
        split at hb2
        · exact Outcome.noConfusion hb2
        · rename_i sigBytes hsig
          have hb3 : _ = note := Outcome.ok.inj hb2
          subst hb3
          rw [← to_hash_str_eq_canonical]
          conv_rhs => rw [to_hash_str_flat _ _ _ _ _ _ _
            (List.replicate 64 0) (List.replicate 128 0)]

end Nostr

namespace Nostr

theorem parseFields_content_ne_empty (input : Bytes) (m : Note)
    (hp : noteParseFields input = .ok m) : m.content ≠ some [] := by
  simp only [noteParseFields] at hp
  repeat' split at hp
  all_goals try exact Outcome.noConfusion hp
  all_goals injection hp with h
  all_goals subst h
  all_goals intro hs
  all_goals simp_all

/-- C10: absent and empty content are indistinguishable at the interface:
to_json emits the same bytes for content none and content some "", and a
successfully parsed note never carries content some "" (the parser maps an
empty content value to none). -/
theorem claim_C10 :
    (∀ n : Note, to_json { n with content := some [] } = to_json { n with content := none }) ∧
    (∀ (input : Bytes) (m : Note), noteTryFrom input = .ok m → m.content ≠ some []) := by
  constructor
  · intro n; rfl
  · intro input m h
    unfold noteTryFrom at h
    cases hp : noteParseFields input with
    | ok n2 =>
      rw [hp] at h
      have h2 : (match validate_signature n2 with
          | Outcome.ok _ => Outcome.ok n2
          | Outcome.err e => Outcome.err e
          | Outcome.panicked => Outcome.panicked) = Outcome.ok m := h
      cases hv : validate_signature n2 with
      | ok u =>
        rw [hv] at h2
        injection h2 with h3
        subst h3
        exact parseFields_content_ne_empty input n2 hp
      | err e => rw [hv] at h2; exact Outcome.noConfusion h2
      | panicked => rw [hv] at h2; exact Outcome.noConfusion h2
    | err e => rw [hp] at h; exact Outcome.noConfusion h
    | panicked => rw [hp] at h; exact Outcome.noConfusion h

end Nostr

namespace Nostr

/-- The fixed fields used for the C9 parse family: the reference event's
values as literals. -/
def c9Base : Note :=
  { id := bs "b515da91ac5df638fae0a6e658e03acc1dda6152dd2107d02d5702ccfcf927e8",
    pubkey := bs "098ef66bce60dd4cf10b4ae5949d1ec6dd777ddeb4bc49b47f97275a127a63cf",
    created_at := 1686880020,
    kind := .shortNote,
    tags := [],
    content := some (bs "esptest"),
    sig := bs "89a4f1ad4b65371e6c3167ea8cb13e73cf64dd5ee71224b1edd8c32ad817af2312202cadb2f22f35d599793e8b1c66b3979d4030f1e7a252098da4a4e0c48fab" }

/-- Everything to_json writes before the tags array contents. -/
def jsonPrefix (n : Note) : Bytes :=
  bs "\x7b\x22content\x22:\x22" ++ (match n.content with | some c => c | none => []) ++
    bs "\x22,\x22created_at\x22:" ++ to_decimal_str n.created_at ++
    bs ",\x22id\x22:\x22" ++ n.id ++
    bs "\x22,\x22kind\x22:" ++ n.kind.serialize ++
    bs ",\x22pubkey\x22:\x22" ++ n.pubkey ++
    bs "\x22,\x22sig\x22:\x22" ++ n.sig ++
    bs "\x22,\x22tags\x22:["

theorem to_json_decomp (n : Note) :
    to_json n = jsonPrefix n ++ tagsSegRaw n.tags ++ bs "]\x7d" := by
  simp [to_json, jsonPrefix, List.append_assoc]

end Nostr


namespace Nostr

theorem findSub_nil (pat : Bytes) :
    findSub pat [] = if pat.isPrefixOf [] then some 0 else none := rfl

theorem findSub_cons (pat : Bytes) (a : Nat) (t : Bytes) :
    findSub pat (a :: t) =
      if pat.isPrefixOf (a :: t) then some 0 else (findSub pat t).map (· + 1) := rfl

theorem findSub_append (pat A B : Bytes) (i : Nat)
    (h : findSub pat A = some i) (hfit : i + pat.length ≤ A.length) :
    findSub pat (A ++ B) = some i := by
  induction A generalizing i with
  | nil =>
    rw [findSub_nil] at h
    by_cases hp : pat.isPrefixOf [] = true
    · have hpe : pat = [] := by
        cases pat with
        | nil => rfl
        | cons a t => simp [List.isPrefixOf] at hp
      rw [if_pos hp] at h
      injection h with h2
      subst h2
      subst hpe
      cases B with
      | nil => rw [List.append_nil, findSub_nil]; simp [List.isPrefixOf]
      | cons b t => rw [List.nil_append, findSub_cons]; simp [List.isPrefixOf]
    · rw [if_neg hp] at h
      exact Option.noConfusion h
  | cons a A' ih =>
    rw [findSub_cons] at h
    by_cases hp : pat.isPrefixOf (a :: A') = true
    · rw [if_pos hp] at h
      injection h with h2
      subst h2
      show findSub pat (a :: (A' ++ B)) = some 0
      rw [findSub_cons, if_pos]
      have := (List.isPrefixOf_iff_prefix).mp hp
      exact (List.isPrefixOf_iff_prefix).mpr (this.trans (List.prefix_append _ _))
    · rw [if_neg hp] at h
      cases hj : findSub pat A' with
      | none => rw [hj] at h; exact Option.noConfusion h
      | some j =>
        rw [hj] at h
        simp at h
        subst h
        have hfit' : j + pat.length ≤ A'.length := by
          simp at hfit
          omega
        have hnp : pat.isPrefixOf (a :: (A' ++ B)) ≠ true := by
          rw [← List.cons_append]
          intro hyes
          apply hp
          have hpre := (List.isPrefixOf_iff_prefix).mp hyes
          have hlen : pat.length ≤ (a :: A').length := by simp; omega
          have : pat = ((a :: A') ++ B).take pat.length := List.prefix_iff_eq_take.mp hpre
          rw [List.take_append_of_le_length hlen] at this
          exact (List.isPrefixOf_iff_prefix).mpr
            (this ▸ List.take_prefix pat.length (a :: A'))
        show findSub pat (a :: (A' ++ B)) = some (j + 1)
        rw [findSub_cons, if_neg hnp, ih j hj hfit']
        rfl

theorem removeWsGo_no_space (l : Bytes) : ∀ (rw0 : Bool) (acc : Bytes),
    (∀ b ∈ l, b ≠ 32) → acc.length + l.length ≤ 1000 →
    removeWsGo l rw0 acc = .ok (acc ++ l) := by
  induction l with
  | nil => intro rw0 acc _ _; simp [removeWsGo]
  | cons c t ih =>
    intro rw0 acc hns hlen
    have hc : c ≠ 32 := hns c (List.mem_cons_self c t)
    rw [removeWsGo]
    rw [if_neg (by simp [hc])]
    rw [if_neg (by simp at hlen ⊢; omega)]
    rw [ih _ (acc ++ [c]) (fun b hb => hns b (List.mem_cons_of_mem c hb))
      (by simp at hlen ⊢; omega)]
    simp

theorem removeWhitespace_no_space (l : Bytes)
    (hns : ∀ b ∈ l, b ≠ 32) (hlen : l.length ≤ 1000) :
    removeWhitespace l = .ok l := by
  have := removeWsGo_no_space l true [] hns (by simpa using hlen)
  simpa [removeWhitespace] using this

theorem sliceChecked_append_left (A B : Bytes) (a b : Nat) (hb : b ≤ A.length) :
    sliceChecked (A ++ B) a b = sliceChecked A a b := by
  unfold sliceChecked
  by_cases hab : a ≤ b
  · rw [if_pos (by constructor; exact hab; simp; omega), if_pos ⟨hab, hb⟩]
    have hdrop : (A ++ B).drop a = A.drop a ++ B := List.drop_append_of_le_length (by omega)
    rw [hdrop, List.take_append_of_le_length (by simp; omega)]
  · rw [if_neg (by intro hcon; exact hab hcon.1), if_neg (by intro hcon; exact hab hcon.1)]

end Nostr

namespace Nostr

theorem findSub_none_of_ne_nil (sep : Bytes) (hsep : sep ≠ []) :
    findSub sep [] = none := by
  rw [findSub_nil, if_neg]
  cases sep with
  | nil => exact absurd rfl hsep
  | cons a t => simp [List.isPrefixOf]

theorem findSub_some_lt (sep : Bytes) (hsep : sep ≠ []) :
    ∀ (l : Bytes) (i : Nat), findSub sep l = some i → i < l.length := by
  intro l
  induction l with
  | nil =>
    intro i h
    rw [findSub_none_of_ne_nil sep hsep] at h
    exact Option.noConfusion h
  | cons a t ih =>
    intro i h
    rw [findSub_cons] at h
    by_cases hp : sep.isPrefixOf (a :: t) = true
    · rw [if_pos hp] at h
      injection h with h2
      subst h2
      simp
    · rw [if_neg hp] at h
      cases hj : findSub sep t with
      | none => rw [hj] at h; exact Option.noConfusion h
      | some j =>
        rw [hj] at h
        simp at h
        subst h
        have := ih j hj
        simp
        omega

theorem splitSeqF_fuel (sep : Bytes) (hsep : sep ≠ []) :
    ∀ (fuel : Nat) (l : Bytes) (fuel' : Nat), l.length ≤ fuel → l.length ≤ fuel' →
      splitSeqF sep fuel l = splitSeqF sep fuel' l := by
  intro fuel
  induction fuel with
  | zero =>
    intro l fuel' h1 _
    have : l = [] := List.length_eq_zero.mp (by omega)
    subst this
    cases fuel' with
    | zero => rfl
    | succ f => simp [splitSeqF, findSub_none_of_ne_nil sep hsep]
  | succ f ih =>
    intro l fuel' h1 h2
    cases fuel' with
    | zero =>
      have : l = [] := List.length_eq_zero.mp (by omega)
      subst this
      simp [splitSeqF, findSub_none_of_ne_nil sep hsep]
    | succ f2 =>
      show splitSeqF sep (f + 1) l = splitSeqF sep (f2 + 1) l
      rw [splitSeqF, splitSeqF]
      cases hf : findSub sep l with
      | none => rfl
      | some i =>
        have hi : i < l.length := findSub_some_lt sep hsep l i hf
        have hd : (l.drop (i + sep.length)).length ≤ l.length - 1 := by
          rw [List.length_drop]
          have : 1 ≤ sep.length := by
            cases sep with
            | nil => exact absurd rfl hsep
            | cons a t => simp
          omega
        show l.take i :: splitSeqF sep f (l.drop (i + sep.length))
            = l.take i :: splitSeqF sep f2 (l.drop (i + sep.length))
        rw [ih (l.drop (i + sep.length)) f2 (by omega) (by omega)]

theorem splitSeq_step (sep l : Bytes) (i : Nat) (hsep : sep ≠ [])
    (h : findSub sep l = some i) :
    splitSeq sep l = l.take i :: splitSeq sep (l.drop (i + sep.length)) := by
  rw [splitSeq, splitSeq]
  show splitSeqF sep (l.length + 1) l = _
  rw [splitSeqF]
  rw [h]
  have hi : i < l.length := findSub_some_lt sep hsep l i h
  have hs1 : 1 ≤ sep.length := by
    cases sep with
    | nil => exact absurd rfl hsep
    | cons a t => simp
  show l.take i :: splitSeqF sep l.length (l.drop (i + sep.length)) = _
  rw [splitSeqF_fuel sep hsep l.length (l.drop (i + sep.length))
    ((l.drop (i + sep.length)).length + 1)
    (by rw [List.length_drop]; omega) (by omega)]

theorem splitSeq_last (sep l : Bytes) (h : findSub sep l = none) :
    splitSeq sep l = [l] := by
  rw [splitSeq, splitSeqF, h]

theorem findSub_first (sep p q : Bytes) (hpre : sep.isPrefixOf q = true)
    (hno : ∀ i, i < p.length → ¬ sep.isPrefixOf ((p ++ q).drop i) = true) :
    findSub sep (p ++ q) = some p.length := by
  induction p with
  | nil =>
    cases q with
    | nil =>
      have hsep : sep = [] := by
        cases sep with
        | nil => rfl
        | cons a t => simp [List.isPrefixOf] at hpre
      subst hsep
      rw [List.append_nil, findSub_nil]
      simp [List.isPrefixOf]
    | cons b t =>
      rw [List.nil_append, findSub_cons, if_pos hpre]
      rfl
  | cons a p' ih =>
    have h0 := hno 0 (by simp)
    rw [List.drop_zero, List.cons_append] at h0
    rw [List.cons_append, findSub_cons, if_neg h0]
    rw [ih (fun i hi => by
      have := hno (i + 1) (by simp; omega)
      rw [List.cons_append] at this
      simpa using this)]
    rfl

theorem isPrefixOf_two (a b : Nat) (l : Bytes) :
    (([a, b] : Bytes).isPrefixOf l) = true ↔ ∃ t, l = a :: b :: t := by
  cases l with
  | nil => simp [List.isPrefixOf]
  | cons x t =>
    cases t with
    | nil => simp [List.isPrefixOf]
    | cons y t2 =>
      constructor
      · intro h
        simp [List.isPrefixOf] at h
        exact ⟨t2, by simp [h.1, h.2]⟩
      · rintro ⟨t3, ht⟩
        injection ht with h1 ht2
        injection ht2 with h2 _
        subst h1; subst h2
        simp [List.isPrefixOf]

theorem no_sep_occurrence (p q : Bytes) (h93 : ∀ b ∈ p.dropLast, b ≠ 93)
    (hq : q.headD 0 = 93) :
    ∀ i, i < p.length → ¬ (([93, 44] : Bytes).isPrefixOf ((p ++ q).drop i)) = true := by
  induction p generalizing q with
  | nil => intro i hi; simp at hi
  | cons a p' ih =>
    intro i hi
    cases i with
    | zero =>
      rw [List.drop_zero, List.cons_append]
      intro hyes
      rw [isPrefixOf_two] at hyes
      obtain ⟨t, ht⟩ := hyes
      injection ht with h1 ht2
      subst h1
      cases p' with
      | nil =>
        rw [List.nil_append] at ht2
        rw [ht2] at hq
        simp at hq
      | cons c p'' =>
        have : (93 : Nat) ∈ (93 :: c :: p'').dropLast := by simp
        exact absurd rfl (h93 93 this)
    | succ j =>
      rw [List.cons_append]
      show ¬ (([93, 44] : Bytes).isPrefixOf ((p' ++ q).drop j)) = true
      apply ih
      · intro b hb
        apply h93
        cases p' with
        | nil => simp at hb
        | cons c p'' =>
          rw [show ((a :: c :: p'').dropLast) = a :: (c :: p'').dropLast from rfl]
          exact List.mem_cons_of_mem a hb
      · exact hq
      · simp at hi; omega

end Nostr

namespace Nostr

theorem findSub_some_prefix (sep : Bytes) (hsep : sep ≠ []) :
    ∀ (l : Bytes) (i : Nat), findSub sep l = some i → sep.isPrefixOf (l.drop i) = true := by
  intro l
  induction l with
  | nil =>
    intro i h
    rw [findSub_none_of_ne_nil sep hsep] at h
    exact Option.noConfusion h
  | cons a t ih =>
    intro i h
    rw [findSub_cons] at h
    by_cases hp : sep.isPrefixOf (a :: t) = true
    · rw [if_pos hp] at h
      injection h with h2
      subst h2
      simpa using hp
    · rw [if_neg hp] at h
      cases hj : findSub sep t with
      | none => rw [hj] at h; exact Option.noConfusion h
      | some j =>
        rw [hj] at h
        simp at h
        subst h
        simpa using ih j hj

theorem sep_length_pos (sep : Bytes) (hsep : sep ≠ []) : 1 ≤ sep.length := by
  cases sep with
  | nil => exact absurd rfl hsep
  | cons a u => simp

theorem splitSeq_reassemble (sep : Bytes) (hsep : sep ≠ []) (t : Bytes) (i : Nat)
    (h : findSub sep t = some i) :
    t = t.take i ++ sep ++ t.drop (i + sep.length) := by
  have hpre := findSub_some_prefix sep hsep t i h
  have hpre2 := (List.isPrefixOf_iff_prefix).mp hpre
  obtain ⟨r, hr⟩ := hpre2
  have hdrop : t.drop (i + sep.length) = r := by
    have : (t.drop i).drop sep.length = r := by rw [← hr]; simp
    rw [← this, List.drop_drop]
  calc t = t.take i ++ t.drop i := (List.take_append_drop i t).symm
    _ = t.take i ++ (sep ++ r) := by rw [hr]
    _ = t.take i ++ sep ++ t.drop (i + sep.length) := by rw [hdrop, List.append_assoc]

/-- Split then join with the separator is the identity. -/
theorem intercalate_splitSeq (sep : Bytes) (hsep : sep ≠ []) (t : Bytes) :
    List.intercalate sep (splitSeq sep t) = t := by
  have H : ∀ (n : Nat) (u : Bytes), u.length ≤ n →
      List.intercalate sep (splitSeq sep u) = u := by
    intro n
    induction n with
    | zero =>
      intro u hu
      have : u = [] := List.length_eq_zero.mp (by omega)
      subst this
      rw [splitSeq_last sep [] (findSub_none_of_ne_nil sep hsep), intercalate_single]
    | succ n ih =>
      intro u hu
      cases hf : findSub sep u with
      | none => rw [splitSeq_last sep u hf, intercalate_single]
      | some i =>
        rw [splitSeq_step sep u i hsep hf]
        have hd : (u.drop (i + sep.length)).length ≤ n := by
          have := findSub_some_lt sep hsep u i hf
          have := sep_length_pos sep hsep
          rw [List.length_drop]
          omega
        cases hsp : splitSeq sep (u.drop (i + sep.length)) with
        | nil => exact absurd hsp (splitSeq_ne_nil sep _)
        | cons p ps =>
          rw [intercalate_cons₂, ← hsp, ih _ hd]
          exact (splitSeq_reassemble sep hsep u i hf).symm
  exact H t.length t le_rfl

/-- Bytes of split pieces come from the split string. -/
theorem splitSeq_mem (sep : Bytes) (hsep : sep ≠ []) (t p : Bytes)
    (hp : p ∈ splitSeq sep t) : ∀ b ∈ p, b ∈ t := by
  have H : ∀ (n : Nat) (u q : Bytes), u.length ≤ n → q ∈ splitSeq sep u →
      ∀ b ∈ q, b ∈ u := by
    intro n
    induction n with
    | zero =>
      intro u q hu hq b hb
      have : u = [] := List.length_eq_zero.mp (by omega)
      subst this
      rw [splitSeq_last sep [] (findSub_none_of_ne_nil sep hsep)] at hq
      simp at hq
      subst hq
      simp at hb
    | succ n ih =>
      intro u q hu hq b hb
      cases hf : findSub sep u with
      | none =>
        rw [splitSeq_last sep u hf] at hq
        simp at hq
        subst hq
        exact hb
      | some i =>
        rw [splitSeq_step sep u i hsep hf] at hq
        rcases List.mem_cons.mp hq with h1 | h2
        · subst h1
          exact List.take_subset i u hb
        · have hd : (u.drop (i + sep.length)).length ≤ n := by
            have := findSub_some_lt sep hsep u i hf
            have := sep_length_pos sep hsep
            rw [List.length_drop]
            omega
          exact List.drop_subset _ u (ih _ q hd h2 b hb)
  exact H t.length t p le_rfl hp

end Nostr

namespace Nostr

/-- No `],` occurrence anywhere in p when 93 appears at most as p's final byte. -/
theorem no_occ_all (p : Bytes) (h93 : ∀ b ∈ p.dropLast, b ≠ 93) :
    ∀ i, ¬ (([93, 44] : Bytes).isPrefixOf (p.drop i)) = true := by
  induction p with
  | nil => intro i; cases i <;> simp [List.isPrefixOf]
  | cons a p' ih =>
    intro i
    cases i with
    | zero =>
      rw [List.drop_zero]
      intro hyes
      rw [isPrefixOf_two] at hyes
      obtain ⟨t, ht⟩ := hyes
      injection ht with h1 ht2
      subst h1
      cases p' with
      | nil => exact List.noConfusion ht2
      | cons c p'' =>
        exact absurd rfl (h93 93 (by simp))
    | succ j =>
      show ¬ (([93, 44] : Bytes).isPrefixOf (p'.drop j)) = true
      apply ih
      intro b hb
      apply h93
      cases p' with
      | nil => simp at hb
      | cons c p'' =>
        rw [show ((a :: c :: p'').dropLast) = a :: (c :: p'').dropLast from rfl]
        exact List.mem_cons_of_mem a hb

theorem findSub_eq_none_all (sep l : Bytes)
    (h : ∀ i, ¬ sep.isPrefixOf (l.drop i) = true) : findSub sep l = none := by
  induction l with
  | nil =>
    rw [findSub_nil, if_neg]
    simpa using h 0
  | cons a t ih =>
    rw [findSub_cons, if_neg (by simpa using h 0)]
    rw [ih (fun i => by simpa using h (i + 1))]
    rfl

/-- The pieces str::split on `],` produces from the joined tag items: every
item but the last loses its closing bracket to the separator. -/
def splitPieces : List Bytes → List Bytes
  | [] => [[]]
  | [it] => [it]
  | it :: rest => it.dropLast :: splitPieces rest

theorem splitPieces_length (its : List Bytes) (h : its ≠ []) :
    (splitPieces its).length = its.length := by
  induction its with
  | nil => exact absurd rfl h
  | cons it rest ih =>
    cases rest with
    | nil => rfl
    | cons b t =>
      show (it.dropLast :: splitPieces (b :: t)).length = _
      simp only [List.length_cons]
      rw [ih (by simp)]
      simp

theorem splitSeq_items (its : List Bytes) (h : its ≠ [])
    (hshape : ∀ it ∈ its, ∃ inn, it = [91] ++ inn ++ [93] ∧ ∀ b ∈ inn, b ≠ 93) :
    splitSeq [93, 44] (List.intercalate [44] its) = splitPieces its := by
  induction its with
  | nil => exact absurd rfl h
  | cons it rest ih =>
    obtain ⟨inn, hit, hinn⟩ := hshape it (List.mem_cons_self it rest)
    cases rest with
    | nil =>
      rw [intercalate_single]
      show splitSeq [93, 44] it = [it]
      rw [splitSeq_last]
      apply findSub_eq_none_all
      apply no_occ_all
      intro b hb
      rw [hit] at hb
      rw [show (([91] ++ inn ++ [93] : Bytes)).dropLast = [91] ++ inn by
        rw [List.append_assoc, List.dropLast_append_of_ne_nil _ (by simp)]
        simp] at hb
      rcases List.mem_append.mp hb with h1 | h2
      · simp at h1; omega
      · exact hinn b h2
    | cons it2 rest2 =>
      rw [intercalate_cons₂]
      -- it ++ [44] ++ intercalate [44] (it2 :: rest2)
      --   = (it.dropLast) ++ [93,44] ++ intercalate [44] (it2 :: rest2)
      have hdl : it.dropLast = [91] ++ inn := by
        rw [hit, List.append_assoc, List.dropLast_append_of_ne_nil _ (by simp)]
        simp
      have hre : it ++ [44] ++ List.intercalate [44] (it2 :: rest2)
          = it.dropLast ++ ([93, 44] ++ List.intercalate [44] (it2 :: rest2)) := by
        rw [hdl, hit]
        simp [List.append_assoc]
      rw [hre]
      have hfirst : findSub [93, 44]
          (it.dropLast ++ ([93, 44] ++ List.intercalate [44] (it2 :: rest2)))
          = some it.dropLast.length := by
        apply findSub_first
        · simp [List.isPrefixOf]
        · intro i hi
          apply no_sep_occurrence
          · intro b hb
            have hb2 : b ∈ it.dropLast := List.dropLast_subset _ hb
            rw [hdl] at hb2
            rcases List.mem_append.mp hb2 with h1 | h2
            · simp at h1; omega
            · exact hinn b h2
          · rfl
          · exact hi
      rw [splitSeq_step [93, 44] _ _ (by simp) hfirst, List.take_left]
      have hdrop2 : (it.dropLast ++ ([93, 44] ++ List.intercalate [44] (it2 :: rest2))).drop
          (it.dropLast.length + ([93, 44] : Bytes).length)
          = List.intercalate [44] (it2 :: rest2) := by
        rw [List.drop_append]
        simp
      rw [hdrop2, ih (by simp) (fun x hx => hshape x (List.mem_cons_of_mem it hx))]
      rfl

end Nostr

namespace Nostr

/-- The byte predicate of remove_array_chars, as a Boolean. -/
def arrKeep (c : Nat) : Bool := decide (c ≠ 91 ∧ c ≠ 93 ∧ c ≠ 34)

theorem removeArrGo_eq_filter : ∀ (l acc : Bytes),
    (acc ++ l.filter arrKeep).length ≤ 150 →
    removeArrGo l acc = .ok (acc ++ l.filter arrKeep) := by
  intro l
  induction l with
  | nil => intro acc _; simp [removeArrGo]
  | cons c t ih =>
    intro acc hlen
    rw [removeArrGo]
    by_cases hc : c ≠ 91 ∧ c ≠ 93 ∧ c ≠ 34
    · rw [if_pos hc]
      have hf : (c :: t).filter arrKeep = c :: t.filter arrKeep := by
        simp [List.filter_cons, arrKeep, hc]
      rw [hf] at hlen ⊢
      rw [if_neg (by simp at hlen ⊢; omega)]
      rw [ih (acc ++ [c]) (by simpa using hlen)]
      simp
    · rw [if_neg hc]
      have hf : (c :: t).filter arrKeep = t.filter arrKeep := by
        simp [List.filter_cons, arrKeep]
        intro h1 h2
        rcases eq_or_ne c 34 with h | h
        · exact h
        · exact absurd ⟨h1, h2, h⟩ hc
      rw [hf] at hlen ⊢
      exact ih acc hlen

theorem removeArrayChars_eq_filter (l : Bytes) (hlen : (l.filter arrKeep).length ≤ 150) :
    removeArrayChars l = .ok (l.filter arrKeep) := by
  have := removeArrGo_eq_filter l [] (by simpa using hlen)
  simpa [removeArrayChars] using this

theorem filter_eq_self_of_keep (t : Bytes)
    (h : ∀ b ∈ t, (97 ≤ b ∧ b ≤ 122) ∨ b = 44) : t.filter arrKeep = t := by
  rw [List.filter_eq_self]
  intro b hb
  rcases h b hb with h1 | h2
  · simp [arrKeep]; omega
  · subst h2; simp [arrKeep]

theorem filter_intercalate44 (ps : List Bytes) :
    (List.intercalate [44] ps).filter arrKeep
      = List.intercalate [44] (ps.map (·.filter arrKeep)) := by
  induction ps with
  | nil => simp [List.intercalate]
  | cons p rest ih =>
    cases rest with
    | nil => simp [intercalate_single]
    | cons q rest2 =>
      rw [intercalate_cons₂, List.map_cons,
        show List.map (·.filter arrKeep) (q :: rest2)
          = (q.filter arrKeep) :: List.map (·.filter arrKeep) rest2 from rfl,
        intercalate_cons₂]
      rw [List.filter_append, List.filter_append, ih]
      simp [arrKeep]

theorem filter_quoteElems (t : Bytes)
    (hchar : ∀ b ∈ t, (97 ≤ b ∧ b ≤ 122) ∨ b = 44) :
    (quoteElems t).filter arrKeep = t := by
  rw [quoteElems, filter_intercalate44, List.map_map]
  have h34 : ([34] : Bytes).filter arrKeep = [] := by decide
  have hmap : (splitSeq [44] t).map (List.filter arrKeep ∘ fun e => [34] ++ e ++ [34])
      = (splitSeq [44] t).map id := by
    apply List.map_congr_left
    intro e he
    have hesub : ∀ b ∈ e, b ∈ t := splitSeq_mem [44] (by simp) t e he
    show ([34] ++ e ++ [34]).filter arrKeep = id e
    rw [List.filter_append, List.filter_append, h34,
      filter_eq_self_of_keep e (fun b hb => hchar b (hesub b hb))]
    simp
  rw [hmap, List.map_id, intercalate_splitSeq [44] (by simp) t]

end Nostr

namespace Nostr

theorem splitPieces_mem (its : List Bytes) (h : its ≠ []) (p : Bytes)
    (hp : p ∈ splitPieces its) : ∃ it ∈ its, p = it.dropLast ∨ p = it := by
  induction its with
  | nil => exact absurd rfl h
  | cons it rest ih =>
    cases rest with
    | nil =>
      simp [splitPieces] at hp
      exact ⟨it, by simp, Or.inr hp⟩
    | cons it2 rest2 =>
      rcases List.mem_cons.mp hp with h1 | h2
      · exact ⟨it, by simp, Or.inl h1⟩
      · obtain ⟨it3, hmem, hor⟩ := ih (by simp) h2
        exact ⟨it3, List.mem_cons_of_mem it hmem, hor⟩

theorem tagsFoldGo_tooMany : ∀ (pieces : List Bytes) (acc : List Bytes),
    6 ≤ pieces.length + acc.length → acc.length ≤ 5 →
    (∀ p ∈ pieces, p.length > 0 ∧ ∃ t, removeArrayChars p = .ok t) →
    tagsFoldGo pieces acc = .error .tooManyTags := by
  intro pieces
  induction pieces with
  | nil => intro acc h1 h2 _; simp at h1; omega
  | cons p rest ih =>
    intro acc h1 h2 hgood
    obtain ⟨hpos, t, hok⟩ := hgood p (List.mem_cons_self p rest)
    rw [tagsFoldGo, if_pos hpos, hok]
    show (if acc.length ≥ 5 then Except.error Err.tooManyTags else tagsFoldGo rest (acc ++ [t]))
        = Except.error Err.tooManyTags
    by_cases hacc : acc.length ≥ 5
    · rw [if_pos hacc]
    · rw [if_neg hacc]
      apply ih (acc ++ [t]) (by simp at h1 ⊢; omega) (by simp; omega)
        (fun q hq => hgood q (List.mem_cons_of_mem p hq))

/-- Bytes appearing in the canonical tags segment. -/
theorem tagsSegRaw_byte_mem (tags : List Bytes) (b : Nat) (hb : b ∈ tagsSegRaw tags) :
    b = 91 ∨ b = 93 ∨ b = 34 ∨ b = 44 ∨ ∃ t ∈ tags, b ∈ t := by
  have hsub : tagsSegRaw tags ⊆ tags.flatMap tagSeg := by
    rw [tagsSegRaw]
    by_cases h : tags.isEmpty
    · rw [if_pos h]
      exact fun x hx => hx
    · rw [if_neg h]
      exact List.dropLast_subset _
  have hb2 := hsub hb
  rw [List.mem_flatMap] at hb2
  obtain ⟨t, htm, hbt⟩ := hb2
  rw [tagSeg] at hbt
  rcases List.mem_append.mp hbt with h1 | h2
  · have h3 := List.dropLast_subset _ h1
    rcases List.mem_append.mp h3 with h4 | h5
    · simp at h4; omega
    · rw [List.mem_flatMap] at h5
      obtain ⟨e, hem, hbe⟩ := h5
      rcases List.mem_append.mp hbe with h6 | h7
      · rcases List.mem_append.mp h6 with h8 | h9
        · simp at h8; omega
        · exact Or.inr (Or.inr (Or.inr (Or.inr
            ⟨t, htm, splitSeq_mem [44] (by simp) t e hem b h9⟩)))
      · simp at h7
        rcases h7 with h8 | h9
        · omega
        · omega
  · simp at h2
    rcases h2 with h3 | h4
    · omega
    · omega

end Nostr

namespace Nostr

theorem intercalate_prepend (pre x : Bytes) (xs : List Bytes) :
    pre ++ List.intercalate [44] (x :: xs) = List.intercalate [44] ((pre ++ x) :: xs) := by
  cases xs with
  | nil => rw [intercalate_single, intercalate_single]
  | cons y t =>
    rw [intercalate_cons₂, intercalate_cons₂]
    simp [List.append_assoc]

theorem intercalate44_byte_mem : ∀ (ps : List Bytes) (b : Nat),
    b ∈ List.intercalate [44] ps → b = 44 ∨ ∃ p ∈ ps, b ∈ p := by
  intro ps
  induction ps with
  | nil => intro b hb; simp [List.intercalate] at hb
  | cons p rest ih =>
    intro b hb
    cases rest with
    | nil =>
      rw [intercalate_single] at hb
      exact Or.inr ⟨p, by simp, hb⟩
    | cons q rest2 =>
      rw [intercalate_cons₂] at hb
      rcases List.mem_append.mp hb with h1 | h2
      · rcases List.mem_append.mp h1 with h3 | h4
        · exact Or.inr ⟨p, by simp, h3⟩
        · simp at h4; exact Or.inl h4
      · rcases ih b h2 with h3 | ⟨r, hr, hbr⟩
        · exact Or.inl h3
        · exact Or.inr ⟨r, List.mem_cons_of_mem p hr, hbr⟩

theorem quoteElems_byte_mem (t : Bytes) (b : Nat) (hb : b ∈ quoteElems t) :
    b = 34 ∨ b = 44 ∨ b ∈ t := by
  rw [quoteElems] at hb
  rcases intercalate44_byte_mem _ b hb with h1 | ⟨p, hp, hbp⟩
  · exact Or.inr (Or.inl h1)
  · rw [List.mem_map] at hp
    obtain ⟨e, hem, rfl⟩ := hp
    rcases List.mem_append.mp hbp with h2 | h3
    · rcases List.mem_append.mp h2 with h4 | h5
      · simp at h4; exact Or.inl h4
      · exact Or.inr (Or.inr (splitSeq_mem [44] (by simp) t e hem b h5))
    · simp at h3; exact Or.inl h3

/-- Every piece produced by the tags split is nonempty and strips to the
stored tag, so the push loop sees exactly one push attempt per tag. -/
theorem aug_piece_good (t1 : Bytes) (rest : List Bytes)
    (hchar : ∀ t ∈ t1 :: rest, ∀ b ∈ t, (97 ≤ b ∧ b ≤ 122) ∨ b = 44)
    (hlen150 : ∀ t ∈ t1 :: rest, t.length ≤ 150) :
    ∀ p ∈ splitPieces (([91] ++ tagItem t1) :: rest.map tagItem),
      p.length > 0 ∧ ∃ t', removeArrayChars p = .ok t' := by
  intro p hp
  obtain ⟨it, hit, hor⟩ := splitPieces_mem _ (by simp) p hp
  have hshape : ∃ pre t, (∀ b ∈ pre, b = 91) ∧ pre ≠ [] ∧ t ∈ t1 :: rest ∧
      it = (pre ++ quoteElems t) ++ [93] := by
    rcases List.mem_cons.mp hit with h1 | h2
    · refine ⟨[91, 91], t1, by simp, by simp, by simp, ?_⟩
      rw [h1, tagItem]
      simp
    · rw [List.mem_map] at h2
      obtain ⟨t, htm, rfl⟩ := h2
      refine ⟨[91], t, by simp, by simp, List.mem_cons_of_mem t1 htm, ?_⟩
      rw [tagItem]
  obtain ⟨pre, t, hpre91, hprene, htm, hitshape⟩ := hshape
  have hpref : pre.filter arrKeep = [] := by
    rw [List.filter_eq_nil_iff]
    intro b hb
    rw [hpre91 b hb]
    decide
  have hfilt : it.filter arrKeep = t := by
    rw [hitshape, List.filter_append, List.filter_append, hpref,
      filter_quoteElems t (hchar t htm)]
    simp [arrKeep]
  have hfiltd : it.dropLast.filter arrKeep = t := by
    rw [hitshape, List.dropLast_concat, List.filter_append, hpref,
      filter_quoteElems t (hchar t htm)]
    simp
  rcases hor with h1 | h2
  · subst h1
    refine ⟨?_, t, ?_⟩
    · rw [hitshape, List.dropLast_concat]
      cases pre with
      | nil => exact absurd rfl hprene
      | cons a u => simp
    · rw [removeArrayChars_eq_filter _ (by rw [hfiltd]; exact hlen150 t htm), hfiltd]
  · subst h2
    refine ⟨?_, t, ?_⟩
    · rw [hitshape]
      simp
    · rw [removeArrayChars_eq_filter _ (by rw [hfilt]; exact hlen150 t htm), hfilt]

end Nostr

namespace Nostr

/-- With at least six tags over the allowed alphabet the tags fold of the
parser reports TooManyTags. -/
theorem tagsSplit_tooMany (tags : List Bytes) (h6 : 6 ≤ tags.length)
    (hchar : ∀ t ∈ tags, ∀ b ∈ t, (97 ≤ b ∧ b ≤ 122) ∨ b = 44)
    (hlen150 : ∀ t ∈ tags, t.length ≤ 150) :
    tagsFoldGo (splitSeq [93, 44] ([91] ++ tagsSegRaw tags)) [] = .error .tooManyTags := by
  cases tags with
  | nil => simp at h6
  | cons t1 rest =>
    rw [tagsSegRaw_eq _ (by simp), List.map_cons, intercalate_prepend]
    have hshape : ∀ it ∈ (([91] ++ tagItem t1) :: rest.map tagItem),
        ∃ inn, it = [91] ++ inn ++ [93] ∧ ∀ b ∈ inn, b ≠ 93 := by
      intro it hit
      rcases List.mem_cons.mp hit with h1 | h2
      · refine ⟨[91] ++ quoteElems t1, ?_, ?_⟩
        · rw [h1, tagItem]
          simp
        · intro b hb
          rcases List.mem_append.mp hb with ha | hq
          · simp at ha
            omega
          · rcases quoteElems_byte_mem t1 b hq with h | h | h
            · omega
            · omega
            · rcases hchar t1 (by simp) b h with ⟨ha1, ha2⟩ | ha1 <;> omega
      · rw [List.mem_map] at h2
        obtain ⟨t, htm, rfl⟩ := h2
        refine ⟨quoteElems t, by rw [tagItem], ?_⟩
        intro b hb
        rcases quoteElems_byte_mem t b hb with h | h | h
        · omega
        · omega
        · rcases hchar t (List.mem_cons_of_mem t1 htm) b h with ⟨ha1, ha2⟩ | ha1 <;> omega
    rw [splitSeq_items _ (by simp) hshape]
    apply tagsFoldGo_tooMany
    · rw [splitPieces_length _ (by simp)]
      simp at h6 ⊢
      omega
    · simp
    · exact aug_piece_good t1 rest hchar hlen150

end Nostr

namespace Nostr

/-- Generic evaluation of TryFrom<&str> down to the tags fold: when every
field pattern is found, every slice succeeds within its capacity, both
numeric fields parse, and the tags fold reports TooManyTags, the whole
conversion reports TooManyTags. -/
theorem noteTryFrom_tooMany (input value : Bytes)
    (hws : removeWhitespace input = .ok value)
    (cL rL kL iL pL sL tL : Nat)
    (hf1 : findSub patContent value = some cL)
    (hf2 : findSub patCreated value = some rL)
    (hf3 : findSub patKind value = some kL)
    (hf4 : findSub patId value = some iL)
    (hf5 : findSub patPubkey value = some pL)
    (hf6 : findSub patSig value = some sL)
    (hf7 : findSub patTags value = some tL)
    (contentData idData pubkeyData sigData kindData createdData tagsData : Bytes)
    (kindV createdV : Nat)
    (hs1 : sliceChecked value (cL + 11)
      (getEndIndex (sortNat [cL, rL, kL, iL, pL, sL, tL])
        (findIndex (sortNat [cL, rL, kL, iL, pL, sL, tL]) cL) value.length true)
      = some contentData)
    (hl1 : contentData.length ≤ 400)
    (hs2 : sliceChecked value (iL + 6)
      (getEndIndex (sortNat [cL, rL, kL, iL, pL, sL, tL])
        (findIndex (sortNat [cL, rL, kL, iL, pL, sL, tL]) iL) value.length true)
      = some idData)
    (hl2 : idData.length ≤ 64)
    (hs3 : sliceChecked value (pL + 10)
      (getEndIndex (sortNat [cL, rL, kL, iL, pL, sL, tL])
        (findIndex (sortNat [cL, rL, kL, iL, pL, sL, tL]) pL) value.length true)
      = some pubkeyData)
    (hl3 : pubkeyData.length ≤ 64)
    (hs4 : sliceChecked value (sL + 7)
      (getEndIndex (sortNat [cL, rL, kL, iL, pL, sL, tL])
        (findIndex (sortNat [cL, rL, kL, iL, pL, sL, tL]) sL) value.length true)
      = some sigData)
    (hl4 : sigData.length ≤ 128)
    (hs5 : sliceChecked value (kL + 7)
      (getEndIndex (sortNat [cL, rL, kL, iL, pL, sL, tL])
        (findIndex (sortNat [cL, rL, kL, iL, pL, sL, tL]) kL) value.length false)
      = some kindData)
    (hp5 : parseRadix10 65536 kindData = some kindV)
    (hs6 : sliceChecked value (rL + 13)
      (getEndIndex (sortNat [cL, rL, kL, iL, pL, sL, tL])
        (findIndex (sortNat [cL, rL, kL, iL, pL, sL, tL]) rL) value.length false)
      = some createdData)
    (hp6 : parseRadix10 4294967296 createdData = some createdV)
    (hs7 : sliceChecked value (tL + 7)
      (getEndIndex (sortNat [cL, rL, kL, iL, pL, sL, tL])
        (findIndex (sortNat [cL, rL, kL, iL, pL, sL, tL]) tL) value.length true)
      = some tagsData)
    (hfold : tagsFoldGo (splitSeq [93, 44] tagsData) [] = .error .tooManyTags) :
    noteTryFrom input = .err .tooManyTags := by
  have hpf : noteParseFields input = .err .tooManyTags := by
    simp only [noteParseFields, hws, hf1, hf2, hf3, hf4, hf5, hf6, hf7,
      hs1, hs2, hs3, hs4, hs5, hs6, hs7, hp5, hp6, hfold]
    rw [if_neg (by omega)]
    rw [if_neg (by omega)]
    rw [if_neg (by omega)]
    rw [if_neg (by omega)]
  simp only [noteTryFrom, hpf]

end Nostr

namespace Nostr

/-- C9: on a note whose tags list has six or more entries (each a comma
separated list of lowercase words of at most 150 bytes, with the whole
serialization within the parser's kilobyte buffer), parsing the note's own
serialization fails with TooManyTags, because the five-slot tags vector
overflows on the sixth push. -/
theorem claim_C9 (tags : List Bytes) (h6 : 6 ≤ tags.length)
    (hchar : ∀ t ∈ tags, ∀ b ∈ t, (97 ≤ b ∧ b ≤ 122) ∨ b = 44)
    (hlen150 : ∀ t ∈ tags, t.length ≤ 150)
    (hsize : (to_json { c9Base with tags := tags }).length ≤ 1000) :
    noteTryFrom (to_json { c9Base with tags := tags }) = .err .tooManyTags := by
  have hdec : to_json { c9Base with tags := tags }
      = jsonPrefix c9Base ++ (tagsSegRaw tags ++ bs "]\x7d") := by
    rw [to_json_decomp]
    rw [show jsonPrefix { c9Base with tags := tags } = jsonPrefix c9Base from rfl]
    rw [show tagsSegRaw ({ c9Base with tags := tags } : Note).tags = tagsSegRaw tags from rfl]
    rw [List.append_assoc]
  rw [hdec] at hsize ⊢
  have hnoA : ∀ b ∈ jsonPrefix c9Base, b ≠ 32 := by decide
  have hno32W : ∀ b ∈ tagsSegRaw tags, b ≠ 32 := by
    intro b hb
    rcases tagsSegRaw_byte_mem tags b hb with h | h | h | h | ⟨t, htm, hbt⟩
    · omega
    · omega
    · omega
    · omega
    · rcases hchar t htm b hbt with ⟨h1, h2⟩ | h1 <;> omega
  have hws : removeWhitespace (jsonPrefix c9Base ++ (tagsSegRaw tags ++ bs "]\x7d"))
      = .ok (jsonPrefix c9Base ++ (tagsSegRaw tags ++ bs "]\x7d")) := by
    apply removeWhitespace_no_space _ _ hsize
    intro b hb
    rcases List.mem_append.mp hb with h1 | h2
    · exact hnoA b h1
    · rcases List.mem_append.mp h2 with h3 | h4
      · exact hno32W b h3
      · have : b = 93 ∨ b = 125 := by simpa [bs] using h4
        omega
  have hc1 : findSub patContent (jsonPrefix c9Base ++ (tagsSegRaw tags ++ bs "]\x7d"))
      = some 1 := findSub_append _ _ _ _ (by decide) (by decide)
  have hc2 : findSub patCreated (jsonPrefix c9Base ++ (tagsSegRaw tags ++ bs "]\x7d"))
      = some 21 := findSub_append _ _ _ _ (by decide) (by decide)
  have hc3 : findSub patKind (jsonPrefix c9Base ++ (tagsSegRaw tags ++ bs "]\x7d"))
      = some 117 := findSub_append _ _ _ _ (by decide) (by decide)
  have hc4 : findSub patId (jsonPrefix c9Base ++ (tagsSegRaw tags ++ bs "]\x7d"))
      = some 45 := findSub_append _ _ _ _ (by decide) (by decide)
  have hc5 : findSub patPubkey (jsonPrefix c9Base ++ (tagsSegRaw tags ++ bs "]\x7d"))
      = some 126 := findSub_append _ _ _ _ (by decide) (by decide)
  have hc6 : findSub patSig (jsonPrefix c9Base ++ (tagsSegRaw tags ++ bs "]\x7d"))
      = some 202 := findSub_append _ _ _ _ (by decide) (by decide)
  have hc7 : findSub patTags (jsonPrefix c9Base ++ (tagsSegRaw tags ++ bs "]\x7d"))
      = some 339 := findSub_append _ _ _ _ (by decide) (by decide)
  have hslC : sliceChecked (jsonPrefix c9Base ++ (tagsSegRaw tags ++ bs "]\x7d")) (1 + 11) 19
      = some (bs "esptest") := by
    rw [sliceChecked_append_left _ _ _ _ (by decide)]
    decide
  have hslI : sliceChecked (jsonPrefix c9Base ++ (tagsSegRaw tags ++ bs "]\x7d")) (45 + 6) 115
      = some (bs "b515da91ac5df638fae0a6e658e03acc1dda6152dd2107d02d5702ccfcf927e8") := by
    rw [sliceChecked_append_left _ _ _ _ (by decide)]
    decide
  have hslP : sliceChecked (jsonPrefix c9Base ++ (tagsSegRaw tags ++ bs "]\x7d")) (126 + 10) 200
      = some (bs "098ef66bce60dd4cf10b4ae5949d1ec6dd777ddeb4bc49b47f97275a127a63cf") := by
    rw [sliceChecked_append_left _ _ _ _ (by decide)]
    decide
  have hslS : sliceChecked (jsonPrefix c9Base ++ (tagsSegRaw tags ++ bs "]\x7d")) (202 + 7) 337
      = some (bs "89a4f1ad4b65371e6c3167ea8cb13e73cf64dd5ee71224b1edd8c32ad817af2312202cadb2f22f35d599793e8b1c66b3979d4030f1e7a252098da4a4e0c48fab") := by
    rw [sliceChecked_append_left _ _ _ _ (by decide)]
    decide
  have hslK : sliceChecked (jsonPrefix c9Base ++ (tagsSegRaw tags ++ bs "]\x7d")) (117 + 7) 125
      = some (bs "1") := by
    rw [sliceChecked_append_left _ _ _ _ (by decide)]
    decide
  have hslR : sliceChecked (jsonPrefix c9Base ++ (tagsSegRaw tags ++ bs "]\x7d")) (21 + 13) 44
      = some (bs "1686880020") := by
    rw [sliceChecked_append_left _ _ _ _ (by decide)]
    decide
  have hlenA : (jsonPrefix c9Base).length = 347 := by decide
  have hlenTl : (bs "]\x7d" : Bytes).length = 2 := by decide
  have hlen : (jsonPrefix c9Base ++ (tagsSegRaw tags ++ bs "]\x7d")).length
      = 349 + (tagsSegRaw tags).length := by
    rw [List.length_append, List.length_append, hlenA, hlenTl]
    omega
  have hslT : sliceChecked (jsonPrefix c9Base ++ (tagsSegRaw tags ++ bs "]\x7d")) (339 + 7)
      ((jsonPrefix c9Base ++ (tagsSegRaw tags ++ bs "]\x7d")).length - 2)
      = some ([91] ++ tagsSegRaw tags) := by
    unfold sliceChecked
    rw [if_pos (by rw [hlen]; omega)]
    have hdrop : (jsonPrefix c9Base ++ (tagsSegRaw tags ++ bs "]\x7d")).drop (339 + 7)
        = [91] ++ (tagsSegRaw tags ++ bs "]\x7d") := by
      rw [List.drop_append_of_le_length (by rw [hlenA]; omega)]
      rw [show (jsonPrefix c9Base).drop (339 + 7) = [91] from by decide]
    rw [hdrop]
    rw [show (jsonPrefix c9Base ++ (tagsSegRaw tags ++ bs "]\x7d")).length - 2 - (339 + 7)
        = (tagsSegRaw tags).length + 1 from by rw [hlen]; omega]
    show some (([91] ++ (tagsSegRaw tags ++ bs "]\x7d")).take ((tagsSegRaw tags).length + 1))
        = some ([91] ++ tagsSegRaw tags)
    rw [show ([91] ++ (tagsSegRaw tags ++ bs "]\x7d") : Bytes)
        = 91 :: (tagsSegRaw tags ++ bs "]\x7d") from rfl]
    rw [List.take_succ_cons, List.take_left]
    rfl
  have hfold := tagsSplit_tooMany tags h6 hchar hlen150
  exact noteTryFrom_tooMany _ _ hws 1 21 117 45 126 202 339
    hc1 hc2 hc3 hc4 hc5 hc6 hc7
    (bs "esptest")
    (bs "b515da91ac5df638fae0a6e658e03acc1dda6152dd2107d02d5702ccfcf927e8")
    (bs "098ef66bce60dd4cf10b4ae5949d1ec6dd777ddeb4bc49b47f97275a127a63cf")
    (bs "89a4f1ad4b65371e6c3167ea8cb13e73cf64dd5ee71224b1edd8c32ad817af2312202cadb2f22f35d599793e8b1c66b3979d4030f1e7a252098da4a4e0c48fab")
    (bs "1") (bs "1686880020") ([91] ++ tagsSegRaw tags) 1 1686880020
    hslC (by decide) hslI (by decide) hslP (by decide) hslS (by decide)
    hslK (by decide) hslR (by decide) hslT hfold

end Nostr

namespace Nostr

theorem claim_C9_witness :
    noteTryFrom (to_json { c9Base with
      tags := [[97], [98], [99], [100], [101], [102]] }) = .err .tooManyTags :=
  claim_C9 [[97], [98], [99], [100], [101], [102]]
    (by decide) (by decide) (by decide) (by decide)

end Nostr

namespace Nostr

/-- The tags stored by the builder are exactly the tags passed in. -/
theorem build_tags_eq (privkey : Bytes) (kind : NoteKinds) (content : Option Bytes)
    (tags : List Bytes) (created_at : Nat) (aux : Bytes) (note : Note)
    (hb : buildFromPrivkey privkey kind content tags created_at aux = .ok note) :
    note.tags = tags := by
  simp only [buildFromPrivkey] at hb
  generalize new_builder privkey = nb at hb
  cases nb with
  | err e => exact Outcome.noConfusion hb
  | panicked => exact Outcome.noConfusion hb
  | ok d =>
    have hb2 : buildNote d kind content tags created_at aux = .ok note := hb
    simp only [buildNote] at hb2
    generalize xOnly d = xo at hb2
    split at hb2
    · exact Outcome.noConfusion hb2
    · rename_i px y
      split at hb2
      · exact Outcome.noConfusion hb2
      · rename_i msg32 hmsg
        generalize schnorrSign msg32 d aux = sg at hb2
        split at hb2
        · exact Outcome.noConfusion hb2
        · rename_i sigBytes hsig
          have hb3 : _ = note := Outcome.ok.inj hb2
          subst hb3
          rfl

/-- The reference build succeeds and returns refNote. -/
theorem refNote_build_ok : refNoteOutcome = .ok refNote := by decide

/-- Parsing the wire JSON of the untagged reference note yields the note
with tags [""] instead of []: the tags slice of the closed JSON is `[]`,
whose split on `],` produces the nonempty piece `[`, which strips to the
empty string and is pushed as a tag. -/
theorem c2_parse_refNote :
    noteTryFrom (to_json refNote) = .ok { refNote with tags := [[]] } := by
  decide

/-- Parsing the wire JSON of the tagged reference note returns it
unchanged. -/
theorem c2_parse_tagNote : noteTryFrom (to_json tagNote) = .ok tagNote := by
  decide

/-- C2 fails as stated: the untagged builder note refNote round trips to a
different note, whose tags vector holds one empty tag. -/
theorem claim_C2_counterexample :
    refNoteOutcome = .ok refNote ∧
    noteTryFrom (to_json refNote) = .ok { refNote with tags := [[]] } ∧
    { refNote with tags := [[]] } ≠ refNote := by
  refine ⟨refNote_build_ok, c2_parse_refNote, ?_⟩
  intro h
  have ht : ([[]] : List Bytes) = refNote.tags := congrArg Note.tags h
  rw [build_tags_eq _ _ _ _ _ _ _ refNote_build_ok] at ht
  exact List.noConfusion ht

/-- The content stored by the builder is exactly the content passed in. -/
theorem build_content_eq (privkey : Bytes) (kind : NoteKinds) (content : Option Bytes)
    (tags : List Bytes) (created_at : Nat) (aux : Bytes) (note : Note)
    (hb : buildFromPrivkey privkey kind content tags created_at aux = .ok note) :
    note.content = content := by
  simp only [buildFromPrivkey] at hb
  generalize new_builder privkey = nb at hb
  cases nb with
  | err e => exact Outcome.noConfusion hb
  | panicked => exact Outcome.noConfusion hb
  | ok d =>
    have hb2 : buildNote d kind content tags created_at aux = .ok note := hb
    simp only [buildNote] at hb2
    generalize xOnly d = xo at hb2
    split at hb2
    · exact Outcome.noConfusion hb2
    · rename_i px y
      split at hb2
      · exact Outcome.noConfusion hb2
      · rename_i msg32 hmsg
        generalize schnorrSign msg32 d aux = sg at hb2
        split at hb2
        · exact Outcome.noConfusion hb2
        · rename_i sigBytes hsig
          have hb3 : _ = note := Outcome.ok.inj hb2
          subst hb3
          rfl

/-- The tagged reference note rebuilt with content "" (one tag `l,bitcoin`,
content Some of the empty string): the builder accepts it, and its wire
JSON carries "content":"". -/
def ecNoteOutcome : Outcome Note :=
  buildFromPrivkey refPrivkey .shortNote (some []) [bs "l,bitcoin"] 1686880020
    (List.replicate 32 0)

def ecNote : Note := match ecNoteOutcome with | .ok n => n | _ => dummyNote

theorem ecNote_build_ok : ecNoteOutcome = .ok ecNote := by decide

/-- Parsing the wire JSON of the empty-content tagged note yields the note
with content None instead of Some "": the parser stores None whenever the
sliced content value is empty. -/
theorem c2_parse_ecNote :
    noteTryFrom (to_json ecNote) = .ok { ecNote with content := none } := by
  decide

/-- C2 amended and scoped to the exhibited builder notes: for the crate's
tagged test note (one tag, nonempty content) the parse of its wire JSON
returns it unchanged; for the untagged reference note the parse succeeds
but returns the note with tags [""] instead of []; and for the tagged note
rebuilt with content "" the parse succeeds but returns the note with
content None instead of Some "", a second, distinct note. -/
theorem claim_C2_amended :
    noteTryFrom (to_json tagNote) = .ok tagNote ∧
    noteTryFrom (to_json refNote) = .ok { refNote with tags := [[]] } ∧
    noteTryFrom (to_json ecNote) = .ok { ecNote with content := none } ∧
    ecNote.content = some [] ∧
    { ecNote with content := none } ≠ ecNote := by
  refine ⟨c2_parse_tagNote, c2_parse_refNote, c2_parse_ecNote,
    build_content_eq _ _ _ _ _ _ _ ecNote_build_ok, ?_⟩
  intro h
  have hc : (none : Option Bytes) = ecNote.content := congrArg Note.content h
  rw [build_content_eq _ _ _ _ _ _ _ ecNote_build_ok] at hc
  exact Option.noConfusion hc

theorem claim_C1_witness :
    refNote.id = hexEncode (sha256 (canonicalPreimage refNote)) :=
  claim_C1 refPrivkey .shortNote (some (bs "esptest")) [] 1686880020
    (List.replicate 32 0) refNote (by decide) (by decide)
    (by rw [vector_hashstr]; decide) refNote_build_ok

theorem claim_C10_witness :
    to_json { refNote with content := some [] } = to_json { refNote with content := none } ∧
    refNote.content ≠ some [] :=
  ⟨claim_C10.1 refNote, claim_C10.2 refJsonTrunc refNote vector_parse_refjson⟩

end Nostr
